import Mathlib

/-!
Verification of the search-query compiler of the catalitiumJobs repository
(`app/models/db.py` and the pagination logic of
`app/controllers/main_controller.py`).

Python strings are embedded as lists of characters (`PyStr`).  The string
methods the source uses (`strip`, `lower`, `upper`, `split`, `replace`,
substring test, `isalpha`, `isdigit`) are modelled character-wise; case
mapping and character classes are modelled for the ASCII range plus the
non-ASCII characters that actually occur in the source tables and in the
counterexamples below ('ß', 'Ã', 'ã', '¶'): Python's `str.upper` maps
'ß' to "SS", which is observable in `normalize_country`.
Python `dict`s preserve insertion order, so the lexical tables are ordered
association lists.  Python `set` iteration order is unspecified; wherever
the source iterates over a set we fix the first-occurrence order, and all
theorems that depend on such an iteration are stated at the level of
membership / counts, which are order-independent.
-/

set_option maxHeartbeats 1000000
set_option maxRecDepth 40000

abbrev PyStr := List Char

/-- Shorthand turning a Lean string literal into the `List Char` embedding. -/
def pys (s : String) : PyStr := s.data

/-- ASCII whitespace recognised by Python's `str.strip()` / `str.split()`
and by the regex class `\s` (space, tab, newline, carriage return,
form feed, vertical tab). -/
def pyIsSpace (c : Char) : Bool :=
  c = ' ' ∨ c = '\t' ∨ c = '\n' ∨ c = '\r' ∨ c = '\x0c' ∨ c = '\x0b'

/-- `str.strip()` with no argument: remove leading and trailing whitespace. -/
def pyStrip (s : PyStr) : PyStr :=
  ((s.dropWhile pyIsSpace).reverse.dropWhile pyIsSpace).reverse

/-- Lower-case table: ASCII letters plus 'Ã' (which occurs in the
mojibake alias key "Ã¶sterreich" of the source). -/
def LOWER_MAP : List (Char × Char) :=
  [('A','a'),('B','b'),('C','c'),('D','d'),('E','e'),('F','f'),('G','g'),
   ('H','h'),('I','i'),('J','j'),('K','k'),('L','l'),('M','m'),('N','n'),
   ('O','o'),('P','p'),('Q','q'),('R','r'),('S','s'),('T','t'),('U','u'),
   ('V','v'),('W','w'),('X','x'),('Y','y'),('Z','z'),('Ã','ã')]

/-- Character-wise `str.lower()`. -/
def pyLowerChar (c : Char) : Char := ((LOWER_MAP.lookup c).getD c)

/-- `str.lower()`. -/
def pyLower (s : PyStr) : PyStr := s.map pyLowerChar

/-- Upper-case table.  Python's `str.upper()` maps 'ß' to the two-character
string "SS", so the table maps a character to a string. -/
def UPPER_MAP : List (Char × PyStr) :=
  [('a',['A']),('b',['B']),('c',['C']),('d',['D']),('e',['E']),('f',['F']),
   ('g',['G']),('h',['H']),('i',['I']),('j',['J']),('k',['K']),('l',['L']),
   ('m',['M']),('n',['N']),('o',['O']),('p',['P']),('q',['Q']),('r',['R']),
   ('s',['S']),('t',['T']),('u',['U']),('v',['V']),('w',['W']),('x',['X']),
   ('y',['Y']),('z',['Z']),('ß',['S','S']),('ã',['Ã'])]

/-- Character-wise `str.upper()` (possibly expanding, as for 'ß'). -/
def pyUpperChars (c : Char) : PyStr := ((UPPER_MAP.lookup c).getD [c])

/-- `str.upper()`. -/
def pyUpper (s : PyStr) : PyStr := s.flatMap pyUpperChars

/-- The 52 ASCII letters. -/
def ASCII_ALPHA : List Char :=
  (pys "abcdefghijklmnopqrstuvwxyz") ++ (pys "ABCDEFGHIJKLMNOPQRSTUVWXYZ")

/-- Character-wise `str.isalpha()`: ASCII letters plus the non-ASCII
letters occurring in the source tables / counterexamples. -/
def pyIsAlphaChar (c : Char) : Bool :=
  ASCII_ALPHA.contains c ∨ c = 'ß' ∨ c = 'Ã' ∨ c = 'ã' ∨ c = 'ö'

/-- `str.isdigit()` restricted to ASCII digits (also the regex class `\d`). -/
def pyIsDigit (c : Char) : Bool := '0' ≤ c ∧ c ≤ '9'

/-- Python substring test `needle in hay`. -/
def isSubstr (needle : PyStr) : PyStr → Bool
  | [] => needle.isPrefixOf []
  | c :: t => needle.isPrefixOf (c :: t) || isSubstr needle t

/-- Helper for `pySplitWs`: `acc` is the current word, reversed. -/
def pySplitWsAux : PyStr → PyStr → List PyStr
  | acc, [] => if acc = [] then [] else [acc.reverse]
  | acc, c :: rest =>
    if pyIsSpace c then
      if acc = [] then pySplitWsAux [] rest else acc.reverse :: pySplitWsAux [] rest
    else pySplitWsAux (c :: acc) rest

/-- `str.split()` with no argument: split on whitespace runs, no empties. -/
def pySplitWs (s : PyStr) : List PyStr := pySplitWsAux [] s

/-- `value.replace(needle, repl)` for a single-character needle
(the only form the source uses). -/
def replChar (needle : Char) (repl : PyStr) (s : PyStr) : PyStr :=
  s.flatMap (fun c => if c = needle then repl else [c])

/-- `" ".join`-style joining (`str.join`). -/
def pyJoin (sep : PyStr) : List PyStr → PyStr
  | [] => []
  | [x] => x
  | x :: y :: rest => x ++ sep ++ pyJoin sep (y :: rest)

/-- Lexicographic `≤` on strings by code point, as Python compares `str`. -/
def strLe : PyStr → PyStr → Bool
  | [], _ => true
  | _ :: _, [] => false
  | a :: as_, b :: bs =>
    if a.toNat < b.toNat then true
    else if b.toNat < a.toNat then false
    else strLe as_ bs

/-- Insertion into a `strLe`-sorted list. -/
def insortStr (x : PyStr) : List PyStr → List PyStr
  | [] => [x]
  | y :: rest => if strLe x y then x :: y :: rest else y :: insortStr x rest

/-- Python `sorted` on a list of strings. -/
def sortStr (l : List PyStr) : List PyStr := l.foldr insortStr []

/-- First-occurrence deduplication with an explicit `seen` accumulator;
models the `patterns` list guarded by the `seen_like` set in
`Job._country_patterns` (`add_like`). -/
def dedupSeen : List PyStr → List PyStr → List PyStr
  | _, [] => []
  | seen, x :: rest =>
    if x ∈ seen then dedupSeen seen rest
    else x :: dedupSeen (x :: seen) rest

def dedupAll (l : List PyStr) : List PyStr := dedupSeen [] l

-- ------------------------- Lexical tables (db.py) -------------------------

/-- `COUNTRY_NORM` of `app/models/db.py`, in declaration order. -/
def COUNTRY_NORM : List (PyStr × PyStr) :=
  [(pys "deutschland", pys "DE"), (pys "germany", pys "DE"),
   (pys "deu", pys "DE"), (pys "de", pys "DE"),
   (pys "switzerland", pys "CH"), (pys "schweiz", pys "CH"),
   (pys "suisse", pys "CH"), (pys "svizzera", pys "CH"), (pys "ch", pys "CH"),
   (pys "austria", pys "AT"), (pys "Ã¶sterreich", pys "AT"), (pys "at", pys "AT"),
   (pys "europe", pys "EU"), (pys "eu", pys "EU"), (pys "eur", pys "EU"),
   (pys "european union", pys "EU"),
   (pys "uk", pys "UK"), (pys "gb", pys "UK"), (pys "england", pys "UK"),
   (pys "united kingdom", pys "UK"),
   (pys "usa", pys "US"), (pys "united states", pys "US"),
   (pys "america", pys "US"), (pys "us", pys "US"),
   (pys "spain", pys "ES"), (pys "es", pys "ES"),
   (pys "france", pys "FR"), (pys "fr", pys "FR"),
   (pys "italy", pys "IT"), (pys "it", pys "IT"),
   (pys "netherlands", pys "NL"), (pys "nl", pys "NL"),
   (pys "belgium", pys "BE"), (pys "be", pys "BE"),
   (pys "sweden", pys "SE"), (pys "se", pys "SE"),
   (pys "poland", pys "PL"), (pys "colombia", pys "CO"), (pys "mexico", pys "MX"),
   (pys "portugal", pys "PT"), (pys "ireland", pys "IE"),
   (pys "denmark", pys "DK"), (pys "finland", pys "FI"), (pys "greece", pys "GR"),
   (pys "hungary", pys "HU"), (pys "romania", pys "RO"),
   (pys "slovakia", pys "SK"), (pys "slovenia", pys "SI"),
   (pys "bulgaria", pys "BG"), (pys "croatia", pys "HR"),
   (pys "cyprus", pys "CY"), (pys "czech republic", pys "CZ"),
   (pys "czechia", pys "CZ"), (pys "estonia", pys "EE"),
   (pys "latvia", pys "LV"), (pys "lithuania", pys "LT"),
   (pys "luxembourg", pys "LU"), (pys "malta", pys "MT")]

/-- `LOCATION_COUNTRY_HINTS` of `app/models/db.py`, in declaration order. -/
def LOCATION_COUNTRY_HINTS : List (PyStr × PyStr) :=
  [(pys "amsterdam", pys "NL"), (pys "atlanta", pys "US"),
   (pys "austin", pys "US"), (pys "barcelona", pys "ES"),
   (pys "belgium", pys "BE"), (pys "berlin", pys "DE"),
   (pys "berlin, de", pys "DE"), (pys "boston", pys "US"),
   (pys "brussels", pys "BE"), (pys "budapest", pys "HU"),
   (pys "charlotte", pys "US"), (pys "chicago", pys "US"),
   (pys "copenhagen", pys "DK"), (pys "dallas", pys "US"),
   (pys "denmark", pys "DK"), (pys "denver", pys "US"),
   (pys "dublin", pys "IE"), (pys "france", pys "FR"),
   (pys "frankfurt", pys "DE"), (pys "germany", pys "DE"),
   (pys "hamburg", pys "DE"), (pys "houston", pys "US"),
   (pys "italy", pys "IT"), (pys "lisbon", pys "PT"),
   (pys "london", pys "UK"), (pys "los angeles", pys "US"),
   (pys "los", pys "US"), (pys "madrid", pys "ES"),
   (pys "miami", pys "US"), (pys "milan", pys "IT"),
   (pys "minneapolis", pys "US"), (pys "munich", pys "DE"),
   (pys "netherlands", pys "NL"), (pys "new york", pys "US"),
   (pys "oslo", pys "NO"), (pys "paris", pys "FR"),
   (pys "philadelphia", pys "US"), (pys "phoenix", pys "US"),
   (pys "pittsburgh", pys "US"), (pys "portland", pys "US"),
   (pys "porto", pys "PT"), (pys "portugal", pys "PT"),
   (pys "prague", pys "CZ"), (pys "raleigh", pys "US"),
   (pys "salt lake city", pys "US"), (pys "salt", pys "US"),
   (pys "san francisco", pys "US"), (pys "seattle", pys "US"),
   (pys "spain", pys "ES"), (pys "stockholm", pys "SE"),
   (pys "switzerland", pys "CH"), (pys "tallinn", pys "EE"),
   (pys "uk", pys "UK"), (pys "vienna", pys "AT"),
   (pys "washington", pys "US"), (pys "zurich", pys "CH")]

-- ------------------------- normalize_country ------------------------------

/-- First table entry whose key occurs as a substring of `t`
(the declaration-order scan of `normalize_country`). -/
def firstSubstrKey : List (PyStr × PyStr) → PyStr → Option PyStr
  | [], _ => none
  | (k, v) :: rest, t => if isSubstr k t then some v else firstSubstrKey rest t

/-- `normalize_country` of `app/models/db.py`.  The Python local
`t = q.strip().lower()` is written out as `pyLower (pyStrip q)`. -/
def normalize_country (q : PyStr) : PyStr :=
  if q = [] then []
  else
    match COUNTRY_NORM.lookup (pyLower (pyStrip q)) with
    | some c => c
    | none =>
      if (pyLower (pyStrip q)).length = 2 ∧
         (pyLower (pyStrip q)).all pyIsAlphaChar then
        pyUpper (pyLower (pyStrip q))
      else
        match firstSubstrKey COUNTRY_NORM (pyLower (pyStrip q)) with
        | some c => c
        | none => pyStrip q

example : normalize_country (pys "Deutschland") = pys "DE" := by decide
example : normalize_country (pys "de") = pys "DE" := by decide
example : normalize_country (pys "xx") = pys "XX" := by decide
example : normalize_country (pys "  Germany  ") = pys "DE" := by decide
example : normalize_country (pys "somewhere in europe") = pys "EU" := by decide
example : normalize_country (pys "Atlantis") = pys "AT" := by decide
example : normalize_country (pys "Xanadu!") = pys "Xanadu!" := by decide
example : normalize_country (pys "eß") = pys "ESS" := by decide
example : normalize_country (pys "ESS") = pys "ES" := by decide

-- --------------- Generic lemmas about the string primitives ---------------

theorem lookup_mem_pairs {α β : Type} [BEq α] [LawfulBEq α]
    (l : List (α × β)) (k : α) (v : β) (h : l.lookup k = some v) :
    (k, v) ∈ l := by
  induction l with
  | nil => simp [List.lookup] at h
  | cons p rest ih =>
    rw [List.lookup] at h
    cases hk : k == p.1 with
    | true =>
      rw [hk] at h
      simp only [Option.some.injEq] at h
      subst h
      have hkp : k = p.1 := eq_of_beq hk
      subst hkp
      simp
    | false =>
      rw [hk] at h
      exact List.mem_cons_of_mem _ (ih h)

theorem lookup_mem_values {α β : Type} [BEq α] [LawfulBEq α]
    (l : List (α × β)) (k : α) (v : β) (h : l.lookup k = some v) :
    v ∈ l.map Prod.snd :=
  List.mem_map.mpr ⟨(k, v), lookup_mem_pairs l k v h, rfl⟩

theorem firstSubstrKey_mem_values (l : List (PyStr × PyStr)) (t : PyStr)
    (v : PyStr) (h : firstSubstrKey l t = some v) : v ∈ l.map Prod.snd := by
  induction l with
  | nil => simp [firstSubstrKey] at h
  | cons p rest ih =>
    rw [show p = (p.1, p.2) from rfl, firstSubstrKey] at h
    by_cases hs : isSubstr p.1 t = true
    · rw [if_pos hs] at h
      simp only [Option.some.injEq] at h
      subst h
      simp
    · rw [if_neg hs] at h
      have := ih h
      simp only [List.map_cons, List.mem_cons]
      exact Or.inr this

theorem head_dropWhile_not (p : Char → Bool) (l : PyStr) (c : Char)
    (h : (l.dropWhile p).head? = some c) : p c = false := by
  induction l with
  | nil => simp [List.dropWhile] at h
  | cons a t ih =>
    rw [List.dropWhile_cons] at h
    by_cases hp : p a
    · rw [if_pos hp] at h; exact ih h
    · rw [if_neg hp] at h
      simp only [List.head?_cons, Option.some.injEq] at h
      subst h
      simpa using hp

theorem dropWhile_eq_self_of_head (p : Char → Bool) (l : PyStr)
    (h : ∀ c, l.head? = some c → p c = false) : l.dropWhile p = l := by
  cases l with
  | nil => rfl
  | cons a t =>
    rw [List.dropWhile_cons, if_neg]
    simpa using h a rfl

theorem getLast_dropWhile (p : Char → Bool) (l : PyStr)
    (h : l.dropWhile p ≠ []) : (l.dropWhile p).getLast? = l.getLast? := by
  induction l with
  | nil => simp [List.dropWhile] at h
  | cons a t ih =>
    rw [List.dropWhile_cons]
    rw [List.dropWhile_cons] at h
    by_cases hp : p a
    · rw [if_pos hp] at h ⊢
      cases ht : t with
      | nil => subst ht; simp [List.dropWhile] at h
      | cons b t' =>
        subst ht
        rw [List.getLast?_cons_cons]
        exact ih h
    · rw [if_neg hp]

theorem pyStrip_idem (s : PyStr) : pyStrip (pyStrip s) = pyStrip s := by
  unfold pyStrip
  set f := s.dropWhile pyIsSpace with hf
  set g := f.reverse.dropWhile pyIsSpace with hg
  have h1 : g.reverse.dropWhile pyIsSpace = g.reverse := by
    apply dropWhile_eq_self_of_head
    intro c hc
    rw [List.head?_reverse] at hc
    by_cases hgo : g = []
    · rw [hgo] at hc; simp at hc
    · rw [hg, getLast_dropWhile _ _ (by rw [← hg]; exact hgo),
        List.getLast?_reverse] at hc
      exact head_dropWhile_not pyIsSpace s c hc
  rw [h1, List.reverse_reverse]
  have h2 : g.dropWhile pyIsSpace = g := by
    apply dropWhile_eq_self_of_head
    intro c hc
    rw [hg] at hc
    exact head_dropWhile_not pyIsSpace f.reverse c hc
  rw [h2]

theorem pyStrip_eq_self_of_no_space (l : PyStr)
    (h : ∀ c ∈ l, pyIsSpace c = false) : pyStrip l = l := by
  unfold pyStrip
  have h1 : l.dropWhile pyIsSpace = l := by
    apply dropWhile_eq_self_of_head
    intro c hc
    cases l with
    | nil => simp at hc
    | cons a t =>
      simp only [List.head?_cons, Option.some.injEq] at hc
      exact hc ▸ h a (List.mem_cons_self _ _)
  rw [h1]
  have h2 : l.reverse.dropWhile pyIsSpace = l.reverse := by
    apply dropWhile_eq_self_of_head
    intro c hc
    cases hr : l.reverse with
    | nil => simp [hr] at hc
    | cons a t =>
      rw [hr] at hc
      simp only [List.head?_cons, Option.some.injEq] at hc
      have hm : a ∈ l := by
        have : a ∈ l.reverse := by rw [hr]; exact List.mem_cons_self _ _
        simpa using this
      exact hc ▸ h a hm
  rw [h2, List.reverse_reverse]

theorem all_list {α : Type} (P : α → Prop) [DecidablePred P] (l : List α)
    (h : l.all (fun a => decide (P a)) = true) : ∀ a ∈ l, P a :=
  fun a ha => of_decide_eq_true (List.all_eq_true.mp h a ha)

theorem mem_of_mem_dropWhile (p : Char → Bool) (l : PyStr) (c : Char)
    (h : c ∈ l.dropWhile p) : c ∈ l := by
  induction l with
  | nil => simp [List.dropWhile] at h
  | cons a t ih =>
    rw [List.dropWhile_cons] at h
    by_cases hp : p a
    · rw [if_pos hp] at h
      exact List.mem_cons_of_mem _ (ih h)
    · rwa [if_neg hp] at h

theorem mem_of_mem_pyStrip (s : PyStr) (c : Char) (h : c ∈ pyStrip s) :
    c ∈ s := by
  unfold pyStrip at h
  rw [List.mem_reverse] at h
  have h2 := mem_of_mem_dropWhile _ _ _ h
  rw [List.mem_reverse] at h2
  exact mem_of_mem_dropWhile _ _ _ h2

-- ------------- Resolution-rule lemmas for normalize_country ---------------

theorem nc_rule1 (q c : PyStr) (hq : q ≠ [])
    (h : COUNTRY_NORM.lookup (pyLower (pyStrip q)) = some c) :
    normalize_country q = c := by
  simp [normalize_country, hq, h]

theorem nc_rule2 (q : PyStr) (hq : q ≠ [])
    (h : COUNTRY_NORM.lookup (pyLower (pyStrip q)) = none)
    (hc : (pyLower (pyStrip q)).length = 2 ∧
          (pyLower (pyStrip q)).all pyIsAlphaChar) :
    normalize_country q = pyUpper (pyLower (pyStrip q)) := by
  simp [normalize_country, hq, h, hc]

theorem nc_rule3 (q c : PyStr) (hq : q ≠ [])
    (h : COUNTRY_NORM.lookup (pyLower (pyStrip q)) = none)
    (hc : ¬((pyLower (pyStrip q)).length = 2 ∧
            (pyLower (pyStrip q)).all pyIsAlphaChar))
    (hf : firstSubstrKey COUNTRY_NORM (pyLower (pyStrip q)) = some c) :
    normalize_country q = c := by
  unfold normalize_country
  rw [if_neg hq, h, if_neg hc, hf]

theorem nc_rule4 (q : PyStr) (hq : q ≠ [])
    (h : COUNTRY_NORM.lookup (pyLower (pyStrip q)) = none)
    (hc : ¬((pyLower (pyStrip q)).length = 2 ∧
            (pyLower (pyStrip q)).all pyIsAlphaChar))
    (hf : firstSubstrKey COUNTRY_NORM (pyLower (pyStrip q)) = none) :
    normalize_country q = pyStrip q := by
  unfold normalize_country
  rw [if_neg hq, h, if_neg hc, hf]

theorem nc_vals_idem : ∀ v ∈ COUNTRY_NORM.map Prod.snd,
    normalize_country v = v := by
  apply all_list
  decide

/-- The 26 lower-case ASCII letters. -/
def LOW_ALPHA : List Char := pys "abcdefghijklmnopqrstuvwxyz"

theorem pyLowerChar_ascii (c : Char) (h : c.toNat < 128) :
    (pyLowerChar c).toNat < 128 := by
  unfold pyLowerChar
  cases hl : LOWER_MAP.lookup c with
  | none => simpa using h
  | some v =>
    have hp : (c, v) ∈ LOWER_MAP := lookup_mem_pairs _ _ _ hl
    have hall : ∀ p ∈ LOWER_MAP, p.1.toNat < 128 → p.2.toNat < 128 :=
      all_list _ _ (by decide)
    simpa using hall _ hp h

theorem pyLowerChar_low (d : Char) (hd : d.toNat < 128)
    (ha : pyIsAlphaChar (pyLowerChar d) = true) : pyLowerChar d ∈ LOW_ALPHA := by
  unfold pyLowerChar at ha ⊢
  cases hl : LOWER_MAP.lookup d with
  | some v =>
    have hp : (d, v) ∈ LOWER_MAP := lookup_mem_pairs _ _ _ hl
    have hall : ∀ p ∈ LOWER_MAP, p.1.toNat < 128 → p.2 ∈ LOW_ALPHA :=
      all_list _ _ (by decide)
    simpa using hall _ hp hd
  | none =>
    rw [hl] at ha
    simp only [Option.getD_none] at ha ⊢
    simp only [pyIsAlphaChar, ASCII_ALPHA, decide_eq_true_eq] at ha
    rcases ha with h1 | h2 | h2 | h2 | h2
    · rcases List.mem_append.mp (by simpa using h1) with hlo | hup
      · exact hlo
      · have hsome : ∀ c ∈ pys "ABCDEFGHIJKLMNOPQRSTUVWXYZ",
            (LOWER_MAP.lookup c).isSome := all_list _ _ (by decide)
        have := hsome _ hup
        rw [hl] at this
        simp at this
    all_goals (subst h2; simp at hd)

theorem upperChars_of_low : ∀ c ∈ LOW_ALPHA,
    pyLower (pyUpperChars c) = [c] ∧ (pyUpperChars c).length = 1 ∧
    (∀ u ∈ pyUpperChars c, pyIsSpace u = false ∧ pyIsAlphaChar u = true) := by
  apply all_list
  decide

theorem lower_upper_of_low (t : PyStr) (h : ∀ c ∈ t, c ∈ LOW_ALPHA) :
    pyLower (pyUpper t) = t := by
  induction t with
  | nil => rfl
  | cons c r ih =>
    have hc := (upperChars_of_low c (h c (List.mem_cons_self _ _))).1
    show pyLower (pyUpperChars c ++ pyUpper r) = c :: r
    unfold pyLower at hc ⊢
    rw [List.map_append, hc]
    have := ih (fun d hd => h d (List.mem_cons_of_mem _ hd))
    unfold pyLower at this
    rw [this]
    rfl

theorem upper_len_of_low (t : PyStr) (h : ∀ c ∈ t, c ∈ LOW_ALPHA) :
    (pyUpper t).length = t.length := by
  induction t with
  | nil => rfl
  | cons c r ih =>
    have hc := (upperChars_of_low c (h c (List.mem_cons_self _ _))).2.1
    show (pyUpperChars c ++ pyUpper r).length = r.length + 1
    rw [List.length_append, hc, ih (fun d hd => h d (List.mem_cons_of_mem _ hd))]
    omega

theorem upper_chars_prop (t : PyStr) (h : ∀ c ∈ t, c ∈ LOW_ALPHA) :
    ∀ u ∈ pyUpper t, pyIsSpace u = false ∧ pyIsAlphaChar u = true := by
  intro u hu
  rcases List.mem_flatMap.mp hu with ⟨c, hc, hcu⟩
  exact (upperChars_of_low c (h c hc)).2.2 u hcu

theorem nc_branch2_idem (q : PyStr) (hascii : ∀ c ∈ q, c.toNat < 128)
    (hq : q ≠ [])
    (hnone : COUNTRY_NORM.lookup (pyLower (pyStrip q)) = none)
    (hlen : (pyLower (pyStrip q)).length = 2)
    (halpha : (pyLower (pyStrip q)).all pyIsAlphaChar) :
    normalize_country (normalize_country q) = normalize_country q := by
  have hres : normalize_country q = pyUpper (pyLower (pyStrip q)) :=
    nc_rule2 q hq hnone ⟨hlen, halpha⟩
  set t := pyLower (pyStrip q) with ht
  have hlow : ∀ c ∈ t, c ∈ LOW_ALPHA := by
    intro c hc
    rw [ht] at hc
    rcases List.mem_map.mp hc with ⟨d, hd, hdc⟩
    have hda : d.toNat < 128 := hascii d (mem_of_mem_pyStrip q d hd)
    have hca : pyIsAlphaChar c = true :=
      List.all_eq_true.mp halpha c (by rw [← ht] at hc; exact hc)
    subst hdc
    exact pyLowerChar_low d hda hca
  have hustrip : pyStrip (pyUpper t) = pyUpper t :=
    pyStrip_eq_self_of_no_space _ (fun u hu => (upper_chars_prop t hlow u hu).1)
  have hul : pyLower (pyStrip (pyUpper t)) = t := by
    rw [hustrip, lower_upper_of_low t hlow]
  have hune : pyUpper t ≠ [] := by
    intro habs
    have := upper_len_of_low t hlow
    rw [habs] at this
    simp [hlen] at this
  rw [hres]
  have h2 : normalize_country (pyUpper t) =
      pyUpper (pyLower (pyStrip (pyUpper t))) := by
    apply nc_rule2 _ hune
    · rw [hul]; exact hnone
    · rw [hul]; exact ⟨hlen, halpha⟩
  rw [h2, hul]

/-- Idempotence of `normalize_country` on ASCII inputs (helper for the
amended claim; the unamended claim fails at "eß"). -/
theorem nc_idem_ascii (q : PyStr) (hascii : ∀ c ∈ q, c.toNat < 128) :
    normalize_country (normalize_country q) = normalize_country q := by
  by_cases hq : q = []
  · subst hq; rfl
  cases hl : COUNTRY_NORM.lookup (pyLower (pyStrip q)) with
  | some c =>
    rw [nc_rule1 q c hq hl]
    exact nc_vals_idem c (lookup_mem_values _ _ _ hl)
  | none =>
    by_cases hcond : (pyLower (pyStrip q)).length = 2 ∧
        (pyLower (pyStrip q)).all pyIsAlphaChar
    · exact nc_branch2_idem q hascii hq hl hcond.1 hcond.2
    · cases hf : firstSubstrKey COUNTRY_NORM (pyLower (pyStrip q)) with
      | some c =>
        rw [nc_rule3 q c hq hl hcond hf]
        exact nc_vals_idem c (firstSubstrKey_mem_values _ _ _ hf)
      | none =>
        rw [nc_rule4 q hq hl hcond hf]
        by_cases hsq : pyStrip q = []
        · rw [hsq]; rfl
        · have hkey : pyLower (pyStrip (pyStrip q)) = pyLower (pyStrip q) := by
            rw [pyStrip_idem]
          rw [nc_rule4 (pyStrip q) hsq (by rw [hkey]; exact hl)
              (by rw [hkey]; exact hcond) (by rw [hkey]; exact hf),
            pyStrip_idem]

/-- C5: `normalize_country` resolves every input in this exact order:
(1) exact case-insensitive alias-table match returns its code; (2) otherwise
a trimmed two-letter alphabetic input is returned upper-cased; (3) otherwise
the code of the first alias-table entry (declaration order) whose key is a
substring of the lowered input; (4) otherwise the trimmed original verbatim;
empty input returns the empty string.  In particular
normalize_country "Deutschland" = normalize_country "de" = "DE" and
normalize_country "xx" = "XX". -/
theorem C5_normalize_country_resolution_order :
    (∀ q c, q ≠ [] →
      COUNTRY_NORM.lookup (pyLower (pyStrip q)) = some c →
      normalize_country q = c) ∧
    (∀ q, q ≠ [] →
      COUNTRY_NORM.lookup (pyLower (pyStrip q)) = none →
      (pyLower (pyStrip q)).length = 2 →
      (pyLower (pyStrip q)).all pyIsAlphaChar →
      normalize_country q = pyUpper (pyLower (pyStrip q))) ∧
    (∀ q c, q ≠ [] →
      COUNTRY_NORM.lookup (pyLower (pyStrip q)) = none →
      ¬((pyLower (pyStrip q)).length = 2 ∧
        (pyLower (pyStrip q)).all pyIsAlphaChar) →
      firstSubstrKey COUNTRY_NORM (pyLower (pyStrip q)) = some c →
      normalize_country q = c) ∧
    (∀ q, q ≠ [] →
      COUNTRY_NORM.lookup (pyLower (pyStrip q)) = none →
      ¬((pyLower (pyStrip q)).length = 2 ∧
        (pyLower (pyStrip q)).all pyIsAlphaChar) →
      firstSubstrKey COUNTRY_NORM (pyLower (pyStrip q)) = none →
      normalize_country q = pyStrip q) ∧
    normalize_country [] = [] ∧
    normalize_country (pys "Deutschland") = pys "DE" ∧
    normalize_country (pys "de") = pys "DE" ∧
    normalize_country (pys "xx") = pys "XX" := by
  refine ⟨fun q c hq h => nc_rule1 q c hq h,
    fun q hq h h2 h3 => nc_rule2 q hq h ⟨h2, h3⟩,
    fun q c hq h hc hf => nc_rule3 q c hq h hc hf,
    fun q hq h hc hf => nc_rule4 q hq h hc hf,
    rfl, by decide, by decide, by decide⟩

/-- Witness for C5: rule (1) applied at the concrete input "France". -/
theorem C5_witness : normalize_country (pys "France") = pys "FR" :=
  C5_normalize_country_resolution_order.1 (pys "France") (pys "FR")
    (by decide) (by decide)

/-- C10 fails on the code: `normalize_country` is not idempotent.
Python's `str.upper` maps 'ß' to "SS", so the two-letter passthrough rule
on "eß" returns "ESS", and a second application resolves "ESS" through the
substring rule (key "es") to "ES". -/
theorem C10_counterexample :
    normalize_country (normalize_country (pys "eß")) ≠
      normalize_country (pys "eß") := by
  decide

/-- C10 (amended): `normalize_country` is idempotent on every input whose
characters are ASCII — every canonical code it can produce (an alias-table
value or an upper-cased two-letter passthrough) resolves back to itself,
and the verbatim fallback, being already trimmed, falls through to itself.
The amendment excludes only non-ASCII inputs whose rule-(2) upper-casing
does not round-trip (e.g. "eß"). -/
theorem C10_amended_idempotent_on_ascii (q : PyStr)
    (hascii : ∀ c ∈ q, c.toNat < 128) :
    normalize_country (normalize_country q) = normalize_country q :=
  nc_idem_ascii q hascii

/-- Witness for C10 (amended) at the concrete ASCII input "usa". -/
theorem C10_witness :
    normalize_country (normalize_country (pys "usa")) =
      normalize_country (pys "usa") :=
  C10_amended_idempotent_on_ascii (pys "usa") (by decide)

-- ------------------ Salary parsing (parse_salary_query) -------------------

/-- The regex character class `[\d,.\s]` of the money-number pattern
`\d[\d,.\s]*k?`. -/
def NUMCLS (c : Char) : Bool := pyIsDigit c || c = ',' || c = '.' || pyIsSpace c

/-- All ways a greedy star over class `cls` can split a prefix off `s`,
longest first — the backtracking order of Python's `re`. -/
def starSplits (cls : Char → Bool) (s : PyStr) : List (PyStr × PyStr) :=
  let r := s.takeWhile cls
  (List.range (r.length + 1)).map (fun k =>
    (s.take (r.length - k), s.drop (r.length - k)))

/-- All ways `\d[\d,.\s]*k?` can match a prefix of `s`
(group text, remainder), in backtracking-preference order. -/
def numCands (s : PyStr) : List (PyStr × PyStr) :=
  match s with
  | [] => []
  | c :: rest =>
    if pyIsDigit c then
      (starSplits NUMCLS rest).flatMap (fun p =>
        match p.2 with
        | k :: r3 =>
          if k = 'k' ∨ k = 'K' then [(c :: (p.1 ++ [k]), r3), (c :: p.1, p.2)]
          else [(c :: p.1, p.2)]
        | [] => [(c :: p.1, [])])
    else []

/-- Splits of a greedy `\s*`. -/
def wsSplits (s : PyStr) : List (PyStr × PyStr) := starSplits pyIsSpace s

/-- Remainders after a greedy `=?`, preferred alternative first. -/
def eqSplits (s : PyStr) : List PyStr :=
  match s with
  | c :: r => if c = '=' then [r, c :: r] else [c :: r]
  | [] => [[]]

/-- The `[-–]\s*(\d[\d,.\s]*k?)` continuation of the range pattern:
`r2` is the text after the first group's `\s*`. -/
def rangeDash (s : PyStr) (g1 : PyStr) (r2 : PyStr) : Option (PyStr × PyStr × Nat) :=
  match r2 with
  | d :: r3 =>
    if d = '-' ∨ d = '–' then
      (wsSplits r3).findSome? (fun w2 =>
        (numCands w2.2).findSome? (fun g2p =>
          some (g1, g2p.1, s.length - g2p.2.length)))
    else none
  | [] => none

/-- Match of `(?i)(\d[\d,.\s]*k?)\s*[-–]\s*(\d[\d,.\s]*k?)` at the
start of `s`: `(group1, group2, matched length)`. -/
def rangeAt (s : PyStr) : Option (PyStr × PyStr × Nat) :=
  (numCands s).findSome? (fun g1p =>
    (wsSplits g1p.2).findSome? (fun w1 => rangeDash s g1p.1 w1.2))

/-- The `\s*(\d[\d,.\s]*k?)` tail of the bound patterns: `e` is the text
after the optional `=`. -/
def boundNum (s : PyStr) (e : PyStr) : Option (PyStr × Nat) :=
  (wsSplits e).findSome? (fun w2 =>
    (numCands w2.2).findSome? (fun g =>
      some (g.1, s.length - g.2.length)))

/-- Match of `(?i)sym\s*=?\s*(\d[\d,.\s]*k?)` at the start of `s`
(`sym` is `>` or `<`): `(group, matched length)`. -/
def boundAt (sym : Char) (s : PyStr) : Option (PyStr × Nat) :=
  match s with
  | c :: r1 =>
    if c = sym then
      (wsSplits r1).findSome? (fun w1 =>
        (eqSplits w1.2).findSome? (fun e => boundNum s e))
    else none
  | [] => none

/-- Match of `(?i)(\d[\d,.\s]*k?)` at the start of `s`. -/
def singleAt (s : PyStr) : Option (PyStr × Nat) :=
  (numCands s).findSome? (fun g => some (g.1, s.length - g.2.length))

/-- `re.search`: try the anchored matcher at index 0, 1, …; the first index
with a match wins. -/
def searchAux {α : Type} (f : PyStr → Option α) : PyStr → Nat → Option (Nat × α)
  | [], i => (f []).map (fun a => (i, a))
  | c :: t, i =>
    match f (c :: t) with
    | some a => some (i, a)
    | none => searchAux f t (i + 1)

def reSearch {α : Type} (f : PyStr → Option α) (s : PyStr) : Option (Nat × α) :=
  searchAux f s 0

/-- One greedy standalone match of `\d[\d,.\s]*k?` starting at digit `c`
(used by `re.findall`, where no continuation constrains the star). -/
def grabNum (c : Char) (rest : PyStr) : PyStr × PyStr :=
  let m := rest.takeWhile NUMCLS
  let r := rest.drop m.length
  match r with
  | k :: r2 => if k = 'k' ∨ k = 'K' then (c :: (m ++ [k]), r2) else (c :: m, r)
  | [] => (c :: m, [])

theorem grabNum_len (c : Char) (rest : PyStr) :
    (grabNum c rest).2.length ≤ rest.length := by
  have hd : (rest.drop (rest.takeWhile NUMCLS).length).length ≤ rest.length := by
    rw [List.length_drop]
    omega
  simp only [grabNum]
  cases hr : rest.drop (rest.takeWhile NUMCLS).length with
  | nil => simp [hr]
  | cons k r2 =>
    rw [hr] at hd
    by_cases hk : k = 'k' ∨ k = 'K'
    · simp only [hr, if_pos hk]
      simp at hd ⊢
      omega
    · simp only [hr, if_neg hk]
      simpa using hd

/-- `re.findall(r'(?i)\d[\d,.\s]*k?', text)`, fuelled by the input length
(each step consumes at least one character, see `grabNum_len`). -/
def findallNumF : Nat → PyStr → List PyStr
  | 0, _ => []
  | _ + 1, [] => []
  | fuel + 1, c :: rest =>
    if pyIsDigit c then
      (grabNum c rest).1 :: findallNumF fuel (grabNum c rest).2
    else findallNumF fuel rest

def findallNum (s : PyStr) : List PyStr := findallNumF s.length s

/-- `s.rstrip("k")`. -/
def rstripK (s : PyStr) : PyStr :=
  (s.reverse.dropWhile (fun c => c = 'k')).reverse

/-- The per-token cleaning of `parse_money_numbers`: lower-case, drop "," and
" ", read a trailing "k" as ×1000, drop ".", and require all digits. -/
def parseMoneyToken (raw : PyStr) : Option Nat :=
  let clean := ((pyLower raw).filter (fun c => c ≠ ',')).filter (fun c => c ≠ ' ')
  let mult := if clean.getLast? = some 'k' then 1000 else 1
  let c2 := (rstripK clean).filter (fun c => c ≠ '.')
  if c2 ≠ [] ∧ c2.all pyIsDigit then
    some ((c2.foldl (fun a c => a * 10 + (c.toNat - 48)) 0) * mult)
  else none

/-- `parse_money_numbers` of `app/models/db.py`. -/
def parse_money_numbers (text : PyStr) : List Nat :=
  (findallNum text).filterMap parseMoneyToken

/-- `(s[:st] + s[en:]).strip()` — removal of the matched span. -/
def excise (s : PyStr) (st en : Nat) : PyStr := pyStrip (s.take st ++ s.drop en)

/-- `parse_salary_query` of `app/models/db.py`. -/
def parse_salary_query (q : PyStr) : PyStr × Option Nat × Option Nat :=
  if q = [] then ([], none, none)
  else
    let s := pyStrip q
    match reSearch rangeAt s with
    | some (i, g1, g2, len) =>
      (excise s i (i + len), (parse_money_numbers g1).head?,
       (parse_money_numbers g2).getLast?)
    | none =>
      match reSearch (boundAt '>') s with
      | some (i, g, len) =>
        (excise s i (i + len), (parse_money_numbers g).head?, none)
      | none =>
        match reSearch (boundAt '<') s with
        | some (i, g, len) =>
          (excise s i (i + len), none, (parse_money_numbers g).head?)
        | none =>
          match reSearch singleAt s with
          | some (i, g, len) =>
            (excise s i (i + len), (parse_money_numbers g).head?, none)
          | none => (s, none, none)

example : parse_salary_query (pys "80k-120k") = ([], some 80000, some 120000) := by
  decide
example : parse_salary_query (pys "120k-80k") = ([], some 120000, some 80000) := by
  decide
example : parse_salary_query (pys ">100k") = ([], some 100000, none) := by decide
example : parse_salary_query (pys "<=90k") = ([], none, some 90000) := by decide
example : parse_salary_query (pys "dev 90k") = (pys "dev", some 90000, none) := by
  decide
example : parse_salary_query (pys "python 80k - 120k remote") =
    (pys "python  remote", some 80000, some 120000) := by decide
example : parse_salary_query (pys "no numbers") = (pys "no numbers", none, none) := by
  decide

/-- Priority rule 1 of `parse_salary_query`: a range match wins. -/
theorem psq_rule_range (s : PyStr) (i : Nat) (g1 g2 : PyStr) (len : Nat)
    (hs : s ≠ []) (hr : reSearch rangeAt (pyStrip s) = some (i, g1, g2, len)) :
    parse_salary_query s =
      (excise (pyStrip s) i (i + len), (parse_money_numbers g1).head?,
       (parse_money_numbers g2).getLast?) := by
  simp [parse_salary_query, hs, hr]

/-- Priority rule 2: with no range match, a ">" lower bound wins. -/
theorem psq_rule_gt (s : PyStr) (i : Nat) (g : PyStr) (len : Nat)
    (hs : s ≠ []) (hr : reSearch rangeAt (pyStrip s) = none)
    (hg : reSearch (boundAt '>') (pyStrip s) = some (i, g, len)) :
    parse_salary_query s =
      (excise (pyStrip s) i (i + len), (parse_money_numbers g).head?, none) := by
  simp [parse_salary_query, hs, hr, hg]

/-- Priority rule 3: with no range and no ">", a "<" upper bound wins. -/
theorem psq_rule_lt (s : PyStr) (i : Nat) (g : PyStr) (len : Nat)
    (hs : s ≠ []) (hr : reSearch rangeAt (pyStrip s) = none)
    (hg : reSearch (boundAt '>') (pyStrip s) = none)
    (hl : reSearch (boundAt '<') (pyStrip s) = some (i, g, len)) :
    parse_salary_query s =
      (excise (pyStrip s) i (i + len), none, (parse_money_numbers g).head?) := by
  simp [parse_salary_query, hs, hr, hg, hl]

/-- Priority rule 4: with none of the above, a bare number sets the floor. -/
theorem psq_rule_single (s : PyStr) (i : Nat) (g : PyStr) (len : Nat)
    (hs : s ≠ []) (hr : reSearch rangeAt (pyStrip s) = none)
    (hg : reSearch (boundAt '>') (pyStrip s) = none)
    (hl : reSearch (boundAt '<') (pyStrip s) = none)
    (h1 : reSearch singleAt (pyStrip s) = some (i, g, len)) :
    parse_salary_query s =
      (excise (pyStrip s) i (i + len), (parse_money_numbers g).head?, none) := by
  simp [parse_salary_query, hs, hr, hg, hl, h1]

/-- No rule matches: the trimmed input passes through with no bounds. -/
theorem psq_rule_none (s : PyStr)
    (hs : s ≠ []) (hr : reSearch rangeAt (pyStrip s) = none)
    (hg : reSearch (boundAt '>') (pyStrip s) = none)
    (hl : reSearch (boundAt '<') (pyStrip s) = none)
    (h1 : reSearch singleAt (pyStrip s) = none) :
    parse_salary_query s = (pyStrip s, none, none) := by
  simp [parse_salary_query, hs, hr, hg, hl, h1]

-- ------------------- Job._where and its building blocks -------------------

/-- `Job._escape_like`: escape backslash, then "%", then "_". -/
def escape_like (v : PyStr) : PyStr :=
  replChar '_' (pys "\\_") (replChar '%' (pys "\\%") (replChar '\\' (pys "\\\\") v))

example : escape_like (pys "a%b_c\\d") = pys "a\\%b\\_c\\\\d" := by decide

/-- `Job._EU_FILTER_CODES | {"EU"}` (a Python set), in first-occurrence
order. -/
def EU_FILTER_CODES_WITH_EU : List PyStr :=
  [pys "DE", pys "ES", pys "NL", pys "EU"]

def SEPS_BEFORE : List PyStr := [pys " ", pys "(", pys ",", pys "/", pys "-"]

def SEPS_AFTER : List PyStr := [pys " ", pys ")", pys ",", pys "/", pys "-"]

/-- The LIKE patterns produced for one `code` by the
`for code in normalized_codes` loop body of `Job._country_patterns`,
before deduplication. -/
def codeCandidates (code : PyStr) : List PyStr :=
  let token := escape_like (pyLower code)
  (SEPS_BEFORE.flatMap (fun before =>
    (SEPS_AFTER.map (fun after =>
      pys "%" ++ before ++ token ++ after ++ pys "%")) ++
    [pys "%" ++ before ++ token])) ++
  (if 2 < code.length then [pys "%" ++ token ++ pys "%"] else [])

/-- `{code.upper() for code in codes if code}` as a first-occurrence list. -/
def normalizedCodes (codes : List PyStr) : List PyStr :=
  dedupAll (codes.filterMap (fun c => if c ≠ [] then some (pyUpper c) else none))

/-- The sorted alias names of `Job._country_patterns`: alias-table keys of
length > 2 mapping to one of the normalized codes. -/
def aliasNames (normCodes : List PyStr) : List PyStr :=
  sortStr ((COUNTRY_NORM.filter (fun p =>
    decide (pyUpper p.2 ∈ normCodes ∧ 2 < p.1.length))).map (fun p => pyLower p.1))

/-- The location-hint LIKE patterns of `Job._country_patterns`. -/
def hintLikes (normCodes : List PyStr) : List PyStr :=
  (LOCATION_COUNTRY_HINTS.filter (fun p => decide (pyUpper p.2 ∈ normCodes))).map
    (fun p => pys "%" ++ escape_like p.1 ++ pys "%")

/-- The short location hints added to the equality set. -/
def hintEquals (normCodes : List PyStr) : List PyStr :=
  (LOCATION_COUNTRY_HINTS.filter (fun p =>
    decide (pyUpper p.2 ∈ normCodes ∧ p.1.length ≤ 3))).map (fun p => p.1)

/-- `Job._country_patterns`: the deduplicated LIKE-pattern list and the
sorted equality list. -/
def country_patterns (codes : List PyStr) : List PyStr × List PyStr :=
  let normCodes := normalizedCodes codes
  (dedupAll
    ((normCodes.flatMap codeCandidates) ++
     (if pys "EU" ∈ normCodes then
       [pys "%" ++ escape_like (pys "eu") ++ pys "%"] else []) ++
     ((aliasNames normCodes).map (fun a => pys "%" ++ escape_like a ++ pys "%")) ++
     hintLikes normCodes),
   sortStr (dedupAll ((normCodes.map pyLower) ++ hintEquals normCodes)))

-- ---------------- Title analysis and clause construction ------------------

/-- One emitted WHERE clause: its Postgres rendering, its SQLite rendering,
and the parameters appended to `params_pg` / `params_sqlite` for it. -/
structure Piece where
  pg : PyStr
  sq : PyStr
  ppg : List PyStr
  psq : List PyStr
deriving DecidableEq

def CLAUSE_CORE_PG : PyStr :=
  pys "(job_title_norm ILIKE %s ESCAPE '\\' OR LOWER(job_title) LIKE %s ESCAPE '\\' OR LOWER(job_description) LIKE %s ESCAPE '\\')"

def CLAUSE_CORE_SQ : PyStr :=
  pys "(job_title_norm LIKE ? ESCAPE '\\' OR LOWER(job_title) LIKE ? ESCAPE '\\' OR LOWER(job_description) LIKE ? ESCAPE '\\')"

def CLAUSE_REMOTE_PG : PyStr :=
  pys "(job_title_norm ILIKE %s ESCAPE '\\' OR LOWER(job_title) LIKE %s ESCAPE '\\' OR LOWER(job_description) LIKE %s ESCAPE '\\' OR LOWER(location) LIKE %s ESCAPE '\\')"

def CLAUSE_REMOTE_SQ : PyStr :=
  pys "(job_title_norm LIKE ? ESCAPE '\\' OR LOWER(job_title) LIKE ? ESCAPE '\\' OR LOWER(job_description) LIKE ? ESCAPE '\\' OR LOWER(location) LIKE ? ESCAPE '\\')"

def DEV_TERMS : List PyStr :=
  [pys "developer", pys "programmer", pys "coder",
   pys "software developer", pys "software engineer"]

def DEV_PATTERNS : List PyStr :=
  DEV_TERMS.map (fun t => pys "%" ++ escape_like t ++ pys "%")

def devClauseTermsPg : List PyStr :=
  DEV_TERMS.flatMap (fun _ =>
    [pys "job_title_norm ILIKE %s ESCAPE '\\'",
     pys "LOWER(job_title) LIKE %s ESCAPE '\\'",
     pys "LOWER(job_description) LIKE %s ESCAPE '\\'"])

def devClauseTermsSq : List PyStr :=
  DEV_TERMS.flatMap (fun _ =>
    [pys "job_title_norm LIKE ? ESCAPE '\\'",
     pys "LOWER(job_title) LIKE ? ESCAPE '\\'",
     pys "LOWER(job_description) LIKE ? ESCAPE '\\'"])

def CLAUSE_DEV_PG : PyStr := pys "(" ++ pyJoin (pys " OR ") devClauseTermsPg ++ pys ")"

def CLAUSE_DEV_SQ : PyStr := pys "(" ++ pyJoin (pys " OR ") devClauseTermsSq ++ pys ")"

def DEV_PARAMS : List PyStr := DEV_PATTERNS.flatMap (fun p => [p, p, p])

/-- The title-side analysis of `Job._where`: `none` when the title is empty
or normalizes (strip + lower) to nothing; otherwise the core query (tokens
minus the specials {"remote", "developer"}, re-joined and stripped) and the
remote/developer flags. -/
def titleSpec (title : PyStr) : Option (PyStr × Bool × Bool) :=
  if title = [] then none
  else
    let tnorm := pyLower (pyStrip title)
    if tnorm = [] then none
    else
      let tokens := pySplitWs tnorm
      some (pyStrip (pyJoin (pys " ")
              (tokens.filter (fun tok =>
                decide (tok ≠ pys "remote" ∧ tok ≠ pys "developer")))),
            decide (pys "remote" ∈ tokens),
            decide (pys "developer" ∈ tokens))

/-- The title-side clauses of `Job._where`, in emission order
(core, remote, developer). -/
def titlePieces (title : PyStr) : List Piece :=
  match titleSpec title with
  | none => []
  | some (core, remoteFlag, devFlag) =>
    (if core ≠ [] then
      [⟨CLAUSE_CORE_PG, CLAUSE_CORE_SQ,
        [pys "%" ++ escape_like core ++ pys "%", pys "%" ++ escape_like core ++ pys "%",
         pys "%" ++ escape_like core ++ pys "%"],
        [pys "%" ++ escape_like core ++ pys "%", pys "%" ++ escape_like core ++ pys "%",
         pys "%" ++ escape_like core ++ pys "%"]⟩]
     else []) ++
    (if remoteFlag then
      [⟨CLAUSE_REMOTE_PG, CLAUSE_REMOTE_SQ,
        List.replicate 4 (pys "%" ++ escape_like (pys "remote") ++ pys "%"),
        List.replicate 4 (pys "%" ++ escape_like (pys "remote") ++ pys "%")⟩]
     else []) ++
    (if devFlag then [⟨CLAUSE_DEV_PG, CLAUSE_DEV_SQ, DEV_PARAMS, DEV_PARAMS⟩]
     else [])

def HIGH_PAY_CITIES : List PyStr :=
  [pys "new york", pys "san francisco", pys "zurich"]

/-- The `(patterns_like, equals_exact)` pair computed by the country branch
of `Job._where` (HIGH_PAY, EU, CH, plain two-letter code, or the free-text
fallback). -/
def countryFilter (country : PyStr) : List PyStr × List PyStr :=
  if country = [] then ([], [])
  else
    let cRaw := pyLower (pyStrip country)
    if cRaw = [] then ([], [])
    else
      let upper := pyUpper cRaw
      if upper = pys "HIGH_PAY" then
        (HIGH_PAY_CITIES.map (fun city => pys "%" ++ escape_like city ++ pys "%"),
         HIGH_PAY_CITIES)
      else if upper = pys "EU" then country_patterns EU_FILTER_CODES_WITH_EU
      else if upper = pys "CH" then country_patterns [pys "CH"]
      else if upper.length = 2 ∧ upper.all pyIsAlphaChar then
        country_patterns [upper]
      else ([pys "%" ++ escape_like cRaw ++ pys "%"], [])

def LOC_LIKE_PG : PyStr := pys "LOWER(location) LIKE %s ESCAPE '\\'"

def LOC_LIKE_SQ : PyStr := pys "LOWER(location) LIKE ? ESCAPE '\\'"

def LOC_EQ_PG : PyStr := pys "LOWER(location) = %s"

def LOC_EQ_SQ : PyStr := pys "LOWER(location) = ?"

/-- The country-side clause of `Job._where` (one conjunct assembled from the
LIKE subclause and the equality subclause), with its parameters. -/
def countryPieces (country : PyStr) : List Piece :=
  let pl := (countryFilter country).1
  let eqs := (countryFilter country).2
  let subPg :=
    (if pl ≠ [] then
      [pys "(" ++ pyJoin (pys " OR ") (List.replicate pl.length LOC_LIKE_PG) ++ pys ")"]
     else []) ++
    (if eqs ≠ [] then
      [pys "(" ++ pyJoin (pys " OR ") (List.replicate eqs.length LOC_EQ_PG) ++ pys ")"]
     else [])
  let subSq :=
    (if pl ≠ [] then
      [pys "(" ++ pyJoin (pys " OR ") (List.replicate pl.length LOC_LIKE_SQ) ++ pys ")"]
     else []) ++
    (if eqs ≠ [] then
      [pys "(" ++ pyJoin (pys " OR ") (List.replicate eqs.length LOC_EQ_SQ) ++ pys ")"]
     else [])
  if subPg = [] then []
  else
    [⟨pys "(" ++ pyJoin (pys " OR ") subPg ++ pys ")",
      pys "(" ++ pyJoin (pys " OR ") subSq ++ pys ")",
      pl ++ eqs.map pyLower, pl ++ eqs.map pyLower⟩]

def jobWherePieces (title country : PyStr) : List Piece :=
  titlePieces title ++ countryPieces country

/-- The result of `Job._where`: the two rendered WHERE fragments and the two
positional parameter tuples (sqlite and pg, as the source returns them). -/
structure WhereResult where
  pg : PyStr
  sq : PyStr
  paramsSqlite : List PyStr
  paramsPg : List PyStr
deriving DecidableEq

/-- `Job._where` of `app/models/db.py`. -/
def jobWhere (title country : PyStr) : WhereResult :=
  let ps := jobWherePieces title country
  { pg := if ps = [] then []
          else pys "WHERE " ++ pyJoin (pys " AND ") (ps.map Piece.pg),
    sq := if ps = [] then []
          else pys "WHERE " ++ pyJoin (pys " AND ") (ps.map Piece.sq),
    paramsSqlite := (ps.map Piece.psq).flatten,
    paramsPg := (ps.map Piece.ppg).flatten }

example : jobWhere (pys "  ") (pys "") = ⟨[], [], [], []⟩ := by decide
example : (jobWhere (pys "python") []).pg =
    pys "WHERE (job_title_norm ILIKE %s ESCAPE '\\' OR LOWER(job_title) LIKE %s ESCAPE '\\' OR LOWER(job_description) LIKE %s ESCAPE '\\')" := by decide
example : (jobWhere (pys "python") []).paramsPg = [pys "%python%", pys "%python%", pys "%python%"] := by decide
example : (jobWhere [] (pys "HIGH_PAY")).paramsPg =
    [pys "%new york%", pys "%san francisco%", pys "%zurich%",
     pys "new york", pys "san francisco", pys "zurich"] := by decide
example : (jobWhere [] (pys "ch")).paramsPg.length =
    (jobWhere [] (pys "ch")).paramsSqlite.length := by decide

-- --------------- Counting placeholders in the rendered SQL ----------------

/-- Number of occurrences of the two-character sequence `p1 p2` (used to
count `%s` placeholders in the Postgres rendering). -/
def cnt2 (p1 p2 : Char) : PyStr → Nat
  | a :: b :: rest => (if a = p1 ∧ b = p2 then 1 else 0) + cnt2 p1 p2 (b :: rest)
  | _ => 0

theorem cnt2_cons_ne (p1 p2 c : Char) (l : PyStr) (hc : c ≠ p1) :
    cnt2 p1 p2 (c :: l) = cnt2 p1 p2 l := by
  cases l with
  | nil => rfl
  | cons b rest =>
    show (if c = p1 ∧ b = p2 then 1 else 0) + cnt2 p1 p2 (b :: rest) = _
    rw [if_neg (fun hand => hc hand.1)]
    omega

theorem cnt2_append (p1 p2 : Char) (a b : PyStr)
    (h : a.getLast? = some p1 → b.head? = some p2 → False) :
    cnt2 p1 p2 (a ++ b) = cnt2 p1 p2 a + cnt2 p1 p2 b := by
  induction a with
  | nil => simp [cnt2]
  | cons x a' ih =>
    cases a' with
    | nil =>
      cases b with
      | nil => simp [cnt2]
      | cons c r =>
        show (if x = p1 ∧ c = p2 then 1 else 0) + cnt2 p1 p2 (c :: r) = _
        rw [if_neg (fun hand => h (by simp [hand.1]) (by simp [hand.2]))]
        simp [cnt2]
    | cons y t =>
      show (if x = p1 ∧ y = p2 then 1 else 0) + cnt2 p1 p2 ((y :: t) ++ b) = _
      rw [ih (by
        intro h1 h2
        exact h (by rwa [List.getLast?_cons_cons]) h2)]
      show _ = (if x = p1 ∧ y = p2 then 1 else 0) + cnt2 p1 p2 (y :: t) + cnt2 p1 p2 b
      omega

theorem cnt2_pyJoin (p1 p2 : Char) (sep : PyStr) (l : List PyStr)
    (hsep0 : cnt2 p1 p2 sep = 0)
    (hsepLast : sep.getLast? = some p1 → False)
    (hl : ∀ x ∈ l, x.getLast? = some p1 → False) :
    cnt2 p1 p2 (pyJoin sep l) = (l.map (cnt2 p1 p2)).sum := by
  induction l with
  | nil => simp [pyJoin, cnt2]
  | cons x rest ih =>
    cases rest with
    | nil => simp [pyJoin]
    | cons y t =>
      show cnt2 p1 p2 (x ++ sep ++ pyJoin sep (y :: t)) = _
      rw [List.append_assoc,
        cnt2_append p1 p2 x (sep ++ pyJoin sep (y :: t)) (by
          intro h1 _
          exact hl x (List.mem_cons_self _ _) h1),
        cnt2_append p1 p2 sep (pyJoin sep (y :: t)) (fun h1 _ => hsepLast h1),
        hsep0, ih (fun z hz => hl z (List.mem_cons_of_mem _ hz))]
      simp

theorem cnt2_join_replicate (p1 p2 : Char) (sep seg : PyStr) (n : Nat)
    (hsep0 : cnt2 p1 p2 sep = 0)
    (hsepLast : sep.getLast? = some p1 → False)
    (hseg : seg.getLast? = some p1 → False) :
    cnt2 p1 p2 (pyJoin sep (List.replicate n seg)) = n * cnt2 p1 p2 seg := by
  rw [cnt2_pyJoin p1 p2 sep _ hsep0 hsepLast
    (fun x hx => by rw [List.eq_of_mem_replicate hx]; exact hseg)]
  simp [List.map_replicate]

theorem count_append_char (c : Char) (a b : PyStr) :
    (a ++ b).count c = a.count c + b.count c :=
  List.count_append c a b

theorem count_pyJoin_zero (c : Char) (sep : PyStr) (l : List PyStr)
    (hsep : sep.count c = 0) :
    (pyJoin sep l).count c = (l.map (fun x => x.count c)).sum := by
  induction l with
  | nil => simp [pyJoin]
  | cons x rest ih =>
    cases rest with
    | nil => simp [pyJoin]
    | cons y t =>
      show ((x ++ sep ++ pyJoin sep (y :: t)).count c) = _
      rw [count_append_char, count_append_char, hsep, ih]
      simp

-- ------------- Per-clause invariants of the two renderings ---------------

/-- The invariant each emitted clause satisfies: the pg and sqlite parameter
lists agree, the number of `%s` placeholders in the pg clause and of `?`
placeholders in the sqlite clause equal the parameter count, and the clause
text is parenthesised. -/
def PieceOK (x : Piece) : Prop :=
  x.ppg = x.psq ∧ cnt2 '%' 's' x.pg = x.ppg.length ∧
  x.sq.count '?' = x.psq.length ∧ x.pg.getLast? = some ')'

theorem paren_getLast (inner : PyStr) :
    (pys "(" ++ inner ++ pys ")").getLast? = some ')' := by
  rw [show pys "(" ++ inner ++ pys ")" = (pys "(" ++ inner) ++ [')'] from by
    simp [pys]]
  exact List.getLast?_concat _

theorem cnt2_paren (inner : PyStr) :
    cnt2 '%' 's' (pys "(" ++ inner ++ pys ")") = cnt2 '%' 's' inner := by
  rw [show pys "(" ++ inner ++ pys ")" = '(' :: (inner ++ [')']) from by simp [pys],
    cnt2_cons_ne _ _ _ _ (by decide),
    cnt2_append '%' 's' inner [')'] (by intro _ h2; simp at h2)]
  rfl

theorem count_paren (c : Char) (inner : PyStr) (h1 : ('(' : Char) ≠ c)
    (h2 : (')' : Char) ≠ c) :
    (pys "(" ++ inner ++ pys ")").count c = inner.count c := by
  rw [show pys "(" ++ inner ++ pys ")" = ['('] ++ inner ++ [')'] from by simp [pys],
    count_append_char, count_append_char]
  simp [List.count_singleton, h1, h2]

theorem cnt2_like_block (n : Nat) :
    cnt2 '%' 's'
      (pys "(" ++ pyJoin (pys " OR ") (List.replicate n LOC_LIKE_PG) ++ pys ")") =
      n := by
  have h1 : cnt2 '%' 's' LOC_LIKE_PG = 1 := by decide
  rw [cnt2_paren,
    cnt2_join_replicate '%' 's' (pys " OR ") LOC_LIKE_PG n (by decide)
      (by decide) (by decide), h1, Nat.mul_one]

theorem cnt2_eq_block (n : Nat) :
    cnt2 '%' 's'
      (pys "(" ++ pyJoin (pys " OR ") (List.replicate n LOC_EQ_PG) ++ pys ")") =
      n := by
  have h1 : cnt2 '%' 's' LOC_EQ_PG = 1 := by decide
  rw [cnt2_paren,
    cnt2_join_replicate '%' 's' (pys " OR ") LOC_EQ_PG n (by decide)
      (by decide) (by decide), h1, Nat.mul_one]

theorem count_like_block (n : Nat) :
    (pys "(" ++ pyJoin (pys " OR ") (List.replicate n LOC_LIKE_SQ) ++ pys ")").count
      '?' = n := by
  have h1 : LOC_LIKE_SQ.count '?' = 1 := by decide
  rw [count_paren _ _ (by decide) (by decide),
    count_pyJoin_zero '?' (pys " OR ") _ (by decide)]
  simp [List.map_replicate, h1]

theorem count_eq_block (n : Nat) :
    (pys "(" ++ pyJoin (pys " OR ") (List.replicate n LOC_EQ_SQ) ++ pys ")").count
      '?' = n := by
  have h1 : LOC_EQ_SQ.count '?' = 1 := by decide
  rw [count_paren _ _ (by decide) (by decide),
    count_pyJoin_zero '?' (pys " OR ") _ (by decide)]
  simp [List.map_replicate, h1]

theorem countryPiecesOK (c : PyStr) : ∀ x ∈ countryPieces c, PieceOK x := by
  intro x hx
  unfold countryPieces at hx
  generalize (countryFilter c).1 = pl at hx
  generalize (countryFilter c).2 = eqs at hx
  rcases pl with _ | ⟨p0, pl2⟩ <;> rcases eqs with _ | ⟨e0, eqs2⟩
  · simp at hx
  · simp only [ne_eq, not_true_eq_false, reduceIte, List.cons_ne_nil,
      not_false_eq_true, List.nil_append, List.mem_singleton] at hx
    subst hx
    refine ⟨rfl, ?_, ?_, paren_getLast _⟩
    · rw [cnt2_paren]
      simp only [pyJoin]
      rw [cnt2_eq_block]
      simp
    · rw [count_paren _ _ (by decide) (by decide)]
      simp only [pyJoin]
      rw [count_eq_block]
      simp
  · simp only [ne_eq, not_true_eq_false, reduceIte, List.cons_ne_nil,
      not_false_eq_true, List.append_nil, List.mem_singleton] at hx
    subst hx
    refine ⟨rfl, ?_, ?_, paren_getLast _⟩
    · rw [cnt2_paren]
      simp only [pyJoin]
      rw [cnt2_like_block]
      simp
    · rw [count_paren _ _ (by decide) (by decide)]
      simp only [pyJoin]
      rw [count_like_block]
      simp
  · simp only [ne_eq, not_true_eq_false, reduceIte, List.cons_ne_nil,
      not_false_eq_true, List.cons_append, List.nil_append,
      List.mem_singleton] at hx
    subst hx
    refine ⟨rfl, ?_, ?_, paren_getLast _⟩
    · rw [cnt2_paren,
        cnt2_pyJoin '%' 's' (pys " OR ") _ (by decide) (by decide) (by
          intro z hz h
          fin_cases hz <;> rw [paren_getLast] at h <;> simp at h)]
      simp only [List.map_cons, List.map_nil, List.sum_cons, List.sum_nil,
        cnt2_like_block, cnt2_eq_block]
      simp
      omega
    · rw [count_paren _ _ (by decide) (by decide),
        count_pyJoin_zero '?' (pys " OR ") _ (by decide)]
      simp only [List.map_cons, List.map_nil, List.sum_cons, List.sum_nil,
        count_like_block, count_eq_block]
      simp
      omega

theorem corePieceOK (l : PyStr) :
    PieceOK ⟨CLAUSE_CORE_PG, CLAUSE_CORE_SQ, [l, l, l], [l, l, l]⟩ :=
  ⟨rfl, by show cnt2 '%' 's' CLAUSE_CORE_PG = 3; decide,
   by show CLAUSE_CORE_SQ.count '?' = 3; decide,
   by show CLAUSE_CORE_PG.getLast? = some ')'; decide⟩

theorem remotePieceOK (l : PyStr) :
    PieceOK ⟨CLAUSE_REMOTE_PG, CLAUSE_REMOTE_SQ, List.replicate 4 l,
      List.replicate 4 l⟩ :=
  ⟨rfl, by show cnt2 '%' 's' CLAUSE_REMOTE_PG = 4; decide,
   by show CLAUSE_REMOTE_SQ.count '?' = 4; decide,
   by show CLAUSE_REMOTE_PG.getLast? = some ')'; decide⟩

theorem devPieceOK : PieceOK ⟨CLAUSE_DEV_PG, CLAUSE_DEV_SQ, DEV_PARAMS, DEV_PARAMS⟩ :=
  ⟨rfl, by show cnt2 '%' 's' CLAUSE_DEV_PG = DEV_PARAMS.length; decide,
   by show CLAUSE_DEV_SQ.count '?' = DEV_PARAMS.length; decide,
   by show CLAUSE_DEV_PG.getLast? = some ')'; decide⟩

theorem titlePiecesOK (t : PyStr) : ∀ x ∈ titlePieces t, PieceOK x := by
  intro x hx
  unfold titlePieces at hx
  cases hts : titleSpec t with
  | none => rw [hts] at hx; simp at hx
  | some v =>
    obtain ⟨core, remoteFlag, devFlag⟩ := v
    rw [hts] at hx
    simp only [List.mem_append] at hx
    rcases hx with (hx | hx) | hx
    · by_cases hc : core ≠ []
      · rw [if_pos hc] at hx
        simp only [List.mem_singleton] at hx
        subst hx
        exact corePieceOK _
      · rw [if_neg hc] at hx
        simp at hx
    · by_cases hr : remoteFlag
      · rw [if_pos hr] at hx
        simp only [List.mem_singleton] at hx
        subst hx
        exact remotePieceOK _
      · rw [if_neg hr] at hx
        simp at hx
    · by_cases hd : devFlag
      · rw [if_pos hd] at hx
        simp only [List.mem_singleton] at hx
        subst hx
        exact devPieceOK
      · rw [if_neg hd] at hx
        simp at hx

theorem piecesOK (t c : PyStr) : ∀ x ∈ jobWherePieces t c, PieceOK x := by
  intro x hx
  rcases List.mem_append.mp hx with h | h
  · exact titlePiecesOK t x h
  · exact countryPiecesOK c x h

-- ------------------- Semantics of SQL LIKE patterns -----------------------

/-- SQL LIKE matching with escape character backslash, fuelled so that the
kernel can evaluate it ("%" matches any run, "_" any one character, an
escaped character only itself).  The fuel strictly exceeds
`pattern.length + string.length`, which each step decreases. -/
def likeMatchF : Nat → PyStr → PyStr → Bool
  | 0, _, _ => false
  | _ + 1, [], s => s.isEmpty
  | f + 1, c :: p, s =>
    if c = '%' then
      likeMatchF f p s ||
      (match s with
       | [] => false
       | _ :: s2 => likeMatchF f (c :: p) s2)
    else if c = '\\' then
      match p with
      | e :: p2 =>
        match s with
        | [] => false
        | d :: s2 => decide (d = e) && likeMatchF f p2 s2
      | [] =>
        match s with
        | [] => false
        | d :: s2 => decide (d = '\\') && likeMatchF f [] s2
    else if c = '_' then
      match s with
      | [] => false
      | _ :: s2 => likeMatchF f p s2
    else
      match s with
      | [] => false
      | d :: s2 => decide (d = c) && likeMatchF f p s2

def likeMatch (p s : PyStr) : Bool := likeMatchF (p.length + s.length + 1) p s

theorem likeF_mono : ∀ f1 : Nat, ∀ f2 p s, p.length + s.length < f1 →
    p.length + s.length < f2 → likeMatchF f1 p s = likeMatchF f2 p s := by
  intro f1
  induction f1 with
  | zero => intro f2 p s h1 _; omega
  | succ f1 ih =>
    intro f2 p s h1 h2
    cases f2 with
    | zero => omega
    | succ f2 =>
      cases p with
      | nil => rfl
      | cons c p' =>
        simp only [List.length_cons] at h1 h2
        simp only [likeMatchF]
        by_cases hc : c = '%'
        · rw [if_pos hc, if_pos hc,
            ih f2 p' s (by omega) (by omega)]
          cases s with
          | nil => rfl
          | cons d s2 =>
            simp only [List.length_cons] at h1 h2
            show (_ || likeMatchF f1 (c :: p') s2) = (_ || likeMatchF f2 (c :: p') s2)
            rw [ih f2 (c :: p') s2 (by simp; omega) (by simp; omega)]
        · rw [if_neg hc, if_neg hc]
          by_cases hb : c = '\\'
          · rw [if_pos hb, if_pos hb]
            cases p' with
            | nil =>
              cases s with
              | nil => rfl
              | cons d s2 =>
                simp only [List.length_cons] at h1 h2
                show (decide (d = '\\') && likeMatchF f1 [] s2) =
                  (decide (d = '\\') && likeMatchF f2 [] s2)
                rw [ih f2 [] s2 (by simp; omega) (by simp; omega)]
            | cons e p2 =>
              cases s with
              | nil => rfl
              | cons d s2 =>
                simp only [List.length_cons] at h1 h2
                show (decide (d = e) && likeMatchF f1 p2 s2) =
                  (decide (d = e) && likeMatchF f2 p2 s2)
                rw [ih f2 p2 s2 (by omega) (by omega)]
          · rw [if_neg hb, if_neg hb]
            by_cases hu : c = '_'
            · rw [if_pos hu, if_pos hu]
              cases s with
              | nil => rfl
              | cons d s2 =>
                simp only [List.length_cons] at h1 h2
                show likeMatchF f1 p' s2 = likeMatchF f2 p' s2
                exact ih f2 p' s2 (by omega) (by omega)
            · rw [if_neg hu, if_neg hu]
              cases s with
              | nil => rfl
              | cons d s2 =>
                simp only [List.length_cons] at h1 h2
                show (decide (d = c) && likeMatchF f1 p' s2) =
                  (decide (d = c) && likeMatchF f2 p' s2)
                rw [ih f2 p' s2 (by omega) (by omega)]

theorem likeMatch_of_fuel (f : Nat) (p s : PyStr)
    (h : p.length + s.length < f) : likeMatchF f p s = likeMatch p s :=
  likeF_mono f _ p s h (by omega)

theorem likeMatch_nil (s : PyStr) : likeMatch [] s = s.isEmpty := by
  unfold likeMatch likeMatchF
  rfl

theorem likeMatch_pct_nil (p : PyStr) : likeMatch ('%' :: p) [] = likeMatch p [] := by
  have h0 : likeMatch ('%' :: p) [] =
      likeMatchF ((p.length + 1) + 1) ('%' :: p) [] := by
    unfold likeMatch
    rfl
  have step : likeMatchF ((p.length + 1) + 1) ('%' :: p) [] =
      (likeMatchF (p.length + 1) p [] || false) := rfl
  rw [h0, step, likeMatch_of_fuel _ p [] (by simp), Bool.or_false]

theorem likeMatch_pct_cons (p : PyStr) (d : Char) (s2 : PyStr) :
    likeMatch ('%' :: p) (d :: s2) =
      (likeMatch p (d :: s2) || likeMatch ('%' :: p) s2) := by
  have h0 : likeMatch ('%' :: p) (d :: s2) =
      likeMatchF ((p.length + s2.length + 2) + 1) ('%' :: p) (d :: s2) := by
    unfold likeMatch
    congr 1
    simp
    omega
  have step : likeMatchF ((p.length + s2.length + 2) + 1) ('%' :: p) (d :: s2) =
      (likeMatchF (p.length + s2.length + 2) p (d :: s2) ||
       likeMatchF (p.length + s2.length + 2) ('%' :: p) s2) := rfl
  rw [h0, step, likeMatch_of_fuel _ p (d :: s2) (by simp; omega),
    likeMatch_of_fuel _ ('%' :: p) s2 (by simp; omega)]

theorem likeMatch_lit_nil (c : Char) (p : PyStr) (hc1 : c ≠ '%')
    (hc2 : c ≠ '\\') (hc3 : c ≠ '_') : likeMatch (c :: p) [] = false := by
  have h0 : likeMatch (c :: p) [] =
      likeMatchF ((p.length + 1) + 1) (c :: p) [] := by
    unfold likeMatch
    rfl
  have step : likeMatchF ((p.length + 1) + 1) (c :: p) [] =
      (if c = '%' then likeMatchF (p.length + 1) p [] || false
       else if c = '\\' then
         (match p with
          | _ :: _ => false
          | [] => false)
       else if c = '_' then false
       else false) := by
    cases p <;> rfl
  rw [h0, step, if_neg hc1, if_neg hc2, if_neg hc3]

theorem likeMatch_lit_cons (c : Char) (p : PyStr) (d : Char) (s2 : PyStr)
    (hc1 : c ≠ '%') (hc2 : c ≠ '\\') (hc3 : c ≠ '_') :
    likeMatch (c :: p) (d :: s2) = (decide (d = c) && likeMatch p s2) := by
  have h0 : likeMatch (c :: p) (d :: s2) =
      likeMatchF ((p.length + s2.length + 2) + 1) (c :: p) (d :: s2) := by
    unfold likeMatch
    congr 1
    simp
    omega
  have step : likeMatchF ((p.length + s2.length + 2) + 1) (c :: p) (d :: s2) =
      (if c = '%' then
        likeMatchF (p.length + s2.length + 2) p (d :: s2) ||
        likeMatchF (p.length + s2.length + 2) (c :: p) s2
      else if c = '\\' then
        (match p with
         | e :: p2 => decide (d = e) && likeMatchF (p.length + s2.length + 2) p2 s2
         | [] => decide (d = '\\') && likeMatchF (p.length + s2.length + 2) [] s2)
      else if c = '_' then likeMatchF (p.length + s2.length + 2) p s2
      else decide (d = c) && likeMatchF (p.length + s2.length + 2) p s2) := by
    cases p <;> rfl
  rw [h0, step, if_neg hc1, if_neg hc2, if_neg hc3,
    likeMatch_of_fuel _ p s2 (by omega)]

theorem likeMatch_pct_only (s : PyStr) : likeMatch ['%'] s = true := by
  induction s with
  | nil => rfl
  | cons d s2 ih =>
    rw [show (['%'] : PyStr) = '%' :: [] from rfl, likeMatch_pct_cons, ih]
    simp

/-- Characters that are not LIKE metacharacters and not the escape. -/
def noMetaChar (c : Char) : Bool := decide (c ≠ '%' ∧ c ≠ '_' ∧ c ≠ '\\')

theorem likeMatch_lit_chunk (lit : PyStr) (p : PyStr)
    (h : lit.all noMetaChar = true) : ∀ s : PyStr,
    likeMatch (lit ++ p) s = (lit.isPrefixOf s && likeMatch p (s.drop lit.length)) := by
  induction lit with
  | nil =>
    intro s
    simp [List.isPrefixOf]
  | cons c lit2 ih =>
    intro s
    simp only [List.all_cons, Bool.and_eq_true, noMetaChar, decide_eq_true_eq] at h
    obtain ⟨⟨hc1, hc3, hc2⟩, hall⟩ := h
    cases s with
    | nil =>
      rw [show (c :: lit2) ++ p = c :: (lit2 ++ p) from rfl,
        likeMatch_lit_nil _ _ hc1 hc2 hc3]
      simp [List.isPrefixOf]
    | cons d s2 =>
      rw [show (c :: lit2) ++ p = c :: (lit2 ++ p) from rfl,
        likeMatch_lit_cons _ _ _ _ hc1 hc2 hc3, ih hall s2]
      simp only [List.isPrefixOf_cons₂, List.length_cons, List.drop_succ_cons]
      by_cases hdc : d = c
      · subst hdc
        simp [Bool.and_assoc]
      · have h1 : decide (d = c) = false := by simpa using hdc
        have h2 : (c == d) = false := by
          simpa using (fun hcd => hdc (Eq.symm hcd))
        rw [h1, h2]
        simp

theorem isSubstr_iff (lit s : PyStr) :
    isSubstr lit s = true ↔
      ∃ n, n ≤ s.length ∧ lit.isPrefixOf (s.drop n) = true := by
  induction s with
  | nil =>
    simp only [isSubstr, List.length_nil]
    constructor
    · intro h
      exact ⟨0, le_refl _, h⟩
    · rintro ⟨n, hn, h⟩
      interval_cases n
      exact h
  | cons d s2 ih =>
    simp only [isSubstr, Bool.or_eq_true, ih]
    constructor
    · rintro (h | ⟨n, hn, h⟩)
      · exact ⟨0, by simp, h⟩
      · exact ⟨n + 1, by simp; omega, by simpa using h⟩
    · rintro ⟨n, hn, h⟩
      cases n with
      | zero => exact Or.inl (by simpa using h)
      | succ n2 =>
        right
        exact ⟨n2, by simp at hn; omega, by simpa using h⟩

theorem likeMatch_pct_iff (p s : PyStr) :
    likeMatch ('%' :: p) s = true ↔
      ∃ n, n ≤ s.length ∧ likeMatch p (s.drop n) = true := by
  induction s with
  | nil =>
    rw [likeMatch_pct_nil]
    constructor
    · intro h
      exact ⟨0, le_refl _, h⟩
    · rintro ⟨n, hn, h⟩
      simp only [List.length_nil] at hn
      interval_cases n
      exact h
  | cons d s2 ih =>
    rw [likeMatch_pct_cons]
    simp only [Bool.or_eq_true, ih]
    constructor
    · rintro (h | ⟨n, hn, h⟩)
      · exact ⟨0, by simp, h⟩
      · exact ⟨n + 1, by simp; omega, by simpa using h⟩
    · rintro ⟨n, hn, h⟩
      cases n with
      | zero => exact Or.inl (by simpa using h)
      | succ n2 =>
        right
        exact ⟨n2, by simp at hn; omega, by simpa using h⟩

/-- A `%lit%` LIKE pattern over a metacharacter-free literal matches exactly
the strings containing `lit` as a substring (Python's `in`). -/
theorem likeMatch_substr (lit s : PyStr) (h : lit.all noMetaChar = true) :
    likeMatch ('%' :: (lit ++ ['%'])) s = isSubstr lit s := by
  rw [Bool.eq_iff_iff, likeMatch_pct_iff, isSubstr_iff]
  apply exists_congr
  intro n
  constructor
  · rintro ⟨hn, hm⟩
    rw [likeMatch_lit_chunk lit ['%'] h _, likeMatch_pct_only,
      Bool.and_true] at hm
    exact ⟨hn, hm⟩
  · rintro ⟨hn, hm⟩
    refine ⟨hn, ?_⟩
    rw [likeMatch_lit_chunk lit ['%'] h _, likeMatch_pct_only, Bool.and_true]
    exact hm

-- ---------------- Row model and the two dialect evaluators ----------------

/-- A row of the Jobs table, as far as the compiled filter reads it. -/
structure Row where
  id : Nat
  job_title : PyStr
  job_description : PyStr
  job_title_norm : PyStr
  location : PyStr
  date : Option PyStr
deriving DecidableEq

/-- Postgres `col ILIKE pattern`: case-insensitive LIKE (both sides
case-folded). -/
def ilike (col pat : PyStr) : Bool := likeMatch (pyLower pat) (pyLower col)

/-- SQLite bare `col LIKE pattern`, which is case-insensitive for ASCII by
default; modelled with the same case fold as `ilike`. -/
def sqliteLike (col pat : PyStr) : Bool := likeMatch (pyLower pat) (pyLower col)

/-- `LOWER(col) LIKE pattern` (either dialect): the pattern is applied
verbatim to the lowered column. -/
def lowerLike (col pat : PyStr) : Bool := likeMatch pat (pyLower col)

/-- Denotation of the title-side clauses of the Postgres rendering of
`Job._where` (conjunction of the core, remote and developer clauses,
following the clause texts CLAUSE_CORE_PG / CLAUSE_REMOTE_PG /
CLAUSE_DEV_PG). -/
def evalTitlePg (title : PyStr) (r : Row) : Bool :=
  match titleSpec title with
  | none => true
  | some (core, remoteFlag, devFlag) =>
    (if core ≠ [] then
      ilike r.job_title_norm (pys "%" ++ escape_like core ++ pys "%") ||
      lowerLike r.job_title (pys "%" ++ escape_like core ++ pys "%") ||
      lowerLike r.job_description (pys "%" ++ escape_like core ++ pys "%")
     else true) &&
    (if remoteFlag then
      ilike r.job_title_norm (pys "%" ++ escape_like (pys "remote") ++ pys "%") ||
      lowerLike r.job_title (pys "%" ++ escape_like (pys "remote") ++ pys "%") ||
      lowerLike r.job_description (pys "%" ++ escape_like (pys "remote") ++ pys "%") ||
      lowerLike r.location (pys "%" ++ escape_like (pys "remote") ++ pys "%")
     else true) &&
    (if devFlag then
      DEV_PATTERNS.any (fun p =>
        ilike r.job_title_norm p || lowerLike r.job_title p ||
        lowerLike r.job_description p)
     else true)

/-- Denotation of the title-side clauses of the SQLite rendering
(CLAUSE_CORE_SQ / CLAUSE_REMOTE_SQ / CLAUSE_DEV_SQ: bare LIKE on
job_title_norm instead of ILIKE). -/
def evalTitleSq (title : PyStr) (r : Row) : Bool :=
  match titleSpec title with
  | none => true
  | some (core, remoteFlag, devFlag) =>
    (if core ≠ [] then
      sqliteLike r.job_title_norm (pys "%" ++ escape_like core ++ pys "%") ||
      lowerLike r.job_title (pys "%" ++ escape_like core ++ pys "%") ||
      lowerLike r.job_description (pys "%" ++ escape_like core ++ pys "%")
     else true) &&
    (if remoteFlag then
      sqliteLike r.job_title_norm (pys "%" ++ escape_like (pys "remote") ++ pys "%") ||
      lowerLike r.job_title (pys "%" ++ escape_like (pys "remote") ++ pys "%") ||
      lowerLike r.job_description (pys "%" ++ escape_like (pys "remote") ++ pys "%") ||
      lowerLike r.location (pys "%" ++ escape_like (pys "remote") ++ pys "%")
     else true) &&
    (if devFlag then
      DEV_PATTERNS.any (fun p =>
        sqliteLike r.job_title_norm p || lowerLike r.job_title p ||
        lowerLike r.job_description p)
     else true)

/-- Denotation of the country clause (identical text in both dialects:
`LOWER(location) LIKE …` patterns OR `LOWER(location) = …` equalities). -/
def evalCountry (country : PyStr) (r : Row) : Bool :=
  let pl := (countryFilter country).1
  let eqs := (countryFilter country).2
  if pl = [] ∧ eqs = [] then true
  else
    pl.any (fun p => lowerLike r.location p) ||
    (eqs.map pyLower).any (fun e => decide (pyLower r.location = e))

/-- Denotation of the full Postgres WHERE rendering. -/
def evalWherePg (title country : PyStr) (r : Row) : Bool :=
  evalTitlePg title r && evalCountry country r

/-- Denotation of the full SQLite WHERE rendering. -/
def evalWhereSq (title country : PyStr) (r : Row) : Bool :=
  evalTitleSq title r && evalCountry country r

theorem evalWherePg_eq_evalWhereSq (title country : PyStr) (r : Row) :
    evalWherePg title country r = evalWhereSq title country r := rfl

/-- C1: for every title and country, the two dialect renderings of
`Job._where` have an identical parameter sequence (the pg tuple equals the
sqlite tuple), the number of `%s` placeholders in the Postgres WHERE text
and of `?` placeholders in the SQLite WHERE text each equal the length of
the corresponding parameter tuple, and the two renderings are semantically
equivalent: they select exactly the same rows (the denotations of the two
clause texts agree on every row, LIKE/ILIKE modelled case-insensitively). -/
theorem C1_dialect_equivalence : ∀ title country : PyStr,
    (jobWhere title country).paramsPg = (jobWhere title country).paramsSqlite ∧
    cnt2 '%' 's' (jobWhere title country).pg =
      (jobWhere title country).paramsPg.length ∧
    (jobWhere title country).sq.count '?' =
      (jobWhere title country).paramsSqlite.length ∧
    (∀ r : Row, evalWherePg title country r = evalWhereSq title country r) := by
  intro t c
  have hOK := piecesOK t c
  have hparams : (jobWhere t c).paramsPg = (jobWhere t c).paramsSqlite := by
    show ((jobWherePieces t c).map Piece.ppg).flatten =
      ((jobWherePieces t c).map Piece.psq).flatten
    congr 1
    exact List.map_congr_left (fun x hx => (hOK x hx).1)
  refine ⟨hparams, ?_, ?_, fun r => evalWherePg_eq_evalWhereSq t c r⟩
  · by_cases hps : jobWherePieces t c = []
    · show cnt2 '%' 's'
        (if jobWherePieces t c = [] then []
         else pys "WHERE " ++ pyJoin (pys " AND ") ((jobWherePieces t c).map Piece.pg)) =
        ((jobWherePieces t c).map Piece.ppg).flatten.length
      rw [if_pos hps, hps]
      rfl
    · show cnt2 '%' 's'
        (if jobWherePieces t c = [] then []
         else pys "WHERE " ++ pyJoin (pys " AND ") ((jobWherePieces t c).map Piece.pg)) =
        ((jobWherePieces t c).map Piece.ppg).flatten.length
      rw [if_neg hps,
        cnt2_append '%' 's' (pys "WHERE ") _ (by
          intro h1 _
          exact absurd h1 (by decide)),
        show cnt2 '%' 's' (pys "WHERE ") = 0 from by decide,
        cnt2_pyJoin '%' 's' (pys " AND ") _ (by decide) (by decide) (by
          intro x hx h
          rcases List.mem_map.mp hx with ⟨piece, hp, hpe⟩
          rw [← hpe, (hOK piece hp).2.2.2] at h
          exact absurd h (by decide)),
        List.map_map,
        show ((jobWherePieces t c).map (cnt2 '%' 's' ∘ Piece.pg)) =
          ((jobWherePieces t c).map (fun x => x.ppg.length)) from
          List.map_congr_left (fun x hx => (hOK x hx).2.1),
        List.length_flatten, List.map_map]
      simp only [Nat.zero_add]
      rfl
  · by_cases hps : jobWherePieces t c = []
    · show List.count '?'
        (if jobWherePieces t c = [] then []
         else pys "WHERE " ++ pyJoin (pys " AND ") ((jobWherePieces t c).map Piece.sq)) =
        ((jobWherePieces t c).map Piece.psq).flatten.length
      rw [if_pos hps, hps]
      rfl
    · show List.count '?'
        (if jobWherePieces t c = [] then []
         else pys "WHERE " ++ pyJoin (pys " AND ") ((jobWherePieces t c).map Piece.sq)) =
        ((jobWherePieces t c).map Piece.psq).flatten.length
      rw [if_neg hps, count_append_char,
        show (pys "WHERE ").count '?' = 0 from by decide,
        count_pyJoin_zero '?' (pys " AND ") _ (by decide),
        List.map_map,
        show (List.map ((fun x => List.count '?' x) ∘ Piece.sq) (jobWherePieces t c)) =
          (List.map (fun x => x.psq.length) (jobWherePieces t c)) from
          List.map_congr_left (fun x hx => (hOK x hx).2.2.1),
        List.length_flatten, List.map_map]
      simp only [Nat.zero_add]
      rfl

theorem titleSpec_none_of_strip_empty (title : PyStr)
    (h : pyStrip title = []) : titleSpec title = none := by
  unfold titleSpec
  by_cases ht : title = []
  · rw [if_pos ht]
  · rw [if_neg ht]
    simp [h, pyLower]

theorem countryFilter_empty_of_strip_empty (country : PyStr)
    (h : pyStrip country = []) : countryFilter country = ([], []) := by
  unfold countryFilter
  by_cases hc : country = []
  · rw [if_pos hc]
  · rw [if_neg hc]
    simp [h, pyLower]

/-- C9: the compiler is a total function (the embedding below is a total
Lean function of any two strings, mirroring that `Job._where` raises no
exception), and when the title strips to nothing and the country strips to
nothing, no clause is emitted at all: both WHERE fragments are empty and
both parameter tuples are empty — an unconditional match. -/
theorem C9_empty_inputs_unconditional_match :
    ∀ title country : PyStr, pyStrip title = [] → pyStrip country = [] →
      jobWhere title country = ⟨[], [], [], []⟩ := by
  intro title country h1 h2
  have ht : titlePieces title = [] := by
    unfold titlePieces
    rw [titleSpec_none_of_strip_empty title h1]
  have hc : countryPieces country = [] := by
    unfold countryPieces
    rw [countryFilter_empty_of_strip_empty country h2]
    simp
  have hps : jobWherePieces title country = [] := by
    unfold jobWherePieces
    rw [ht, hc]
    rfl
  show jobWhere title country = ⟨[], [], [], []⟩
  unfold jobWhere
  rw [hps]
  rfl

/-- Witness for C9 at the whitespace-only title "   " and empty country. -/
theorem C9_witness : jobWhere (pys "   ") (pys "") = ⟨[], [], [], []⟩ :=
  C9_empty_inputs_unconditional_match (pys "   ") (pys "") (by decide) (by decide)

/-- The token list `Job._where` derives from the title
(strip, lower, split). -/
def whereTokens (title : PyStr) : List PyStr :=
  pySplitWs (pyLower (pyStrip title))

theorem flatten_infix_of_mem {α β : Type} (f : α → List β) (l : List α)
    (x : α) (hx : x ∈ l) : List.IsInfix (f x) ((l.map f).flatten) := by
  obtain ⟨s, t, rfl⟩ := List.append_of_mem hx
  rw [List.map_append, List.map_cons, List.flatten_append, List.flatten_cons]
  exact ⟨(s.map f).flatten, (t.map f).flatten, by simp⟩

/-- C3 fails on the code: a title whose token list contains "programmer"
(or "coder") does not set the developer flag in `Job._where` — the source
checks only for the literal token "developer" — so no synonym-disjunction
clause is emitted; the compiled filter for title "programmer" is the plain
core clause with three parameters. -/
theorem C3_counterexample :
    pys "programmer" ∈ whereTokens (pys "programmer") ∧
    titleSpec (pys "programmer") = some (pys "programmer", false, false) ∧
    CLAUSE_DEV_PG ∉ (jobWherePieces (pys "programmer") []).map Piece.pg ∧
    (jobWhere (pys "programmer") []).paramsPg =
      [pys "%programmer%", pys "%programmer%", pys "%programmer%"] := by
  decide

/-- C3 (amended): only the literal token "developer" (after strip, lower,
split) sets the developer flag; when it is present, `Job._where` emits the
fixed synonym-set clause — a single OR of fifteen predicates, three
(job_title_norm / job_title / job_description) for each of the five
synonyms {developer, programmer, coder, software developer,
software engineer} — AND-ed with the other clauses, and its fifteen
parameters (each synonym pattern three times) appear contiguously in the
parameter tuple. -/
theorem C3_amended_developer_token_clause (title country : PyStr)
    (h : pys "developer" ∈ whereTokens title) :
    (∃ core remoteFlag, titleSpec title = some (core, remoteFlag, true)) ∧
    CLAUSE_DEV_PG ∈ (jobWherePieces title country).map Piece.pg ∧
    CLAUSE_DEV_SQ ∈ (jobWherePieces title country).map Piece.sq ∧
    List.IsInfix DEV_PARAMS (jobWhere title country).paramsPg ∧
    devClauseTermsPg.length = 15 ∧
    CLAUSE_DEV_PG = pys "(" ++ pyJoin (pys " OR ") devClauseTermsPg ++ pys ")" ∧
    DEV_PARAMS.length = 15 := by
  have ht : title ≠ [] := by
    intro habs
    subst habs
    exact absurd h (by decide)
  have htn : pyLower (pyStrip title) ≠ [] := by
    intro habs
    unfold whereTokens at h
    rw [habs] at h
    exact absurd h (by decide)
  have hdec : decide (pys "developer" ∈ pySplitWs (pyLower (pyStrip title))) = true :=
    decide_eq_true h
  have hspec : titleSpec title =
      some (pyStrip (pyJoin (pys " ")
              ((pySplitWs (pyLower (pyStrip title))).filter (fun tok =>
                decide (tok ≠ pys "remote" ∧ tok ≠ pys "developer")))),
            decide (pys "remote" ∈ pySplitWs (pyLower (pyStrip title))), true) := by
    unfold titleSpec
    rw [if_neg ht]
    simp only [htn, if_neg, reduceIte, hdec]
  have hdevmem : (⟨CLAUSE_DEV_PG, CLAUSE_DEV_SQ, DEV_PARAMS, DEV_PARAMS⟩ : Piece) ∈
      jobWherePieces title country := by
    apply List.mem_append_of_mem_left
    unfold titlePieces
    rw [hspec]
    apply List.mem_append_of_mem_right
    simp
  refine ⟨⟨_, _, hspec⟩, ?_, ?_, ?_, by decide, rfl, by decide⟩
  · exact List.mem_map_of_mem Piece.pg hdevmem
  · exact List.mem_map_of_mem Piece.sq hdevmem
  · exact flatten_infix_of_mem Piece.ppg _ _ hdevmem

/-- Witness for C3 (amended) at the concrete title "developer". -/
theorem C3_witness :
    (∃ core remoteFlag, titleSpec (pys "developer") = some (core, remoteFlag, true)) ∧
    CLAUSE_DEV_PG ∈ (jobWherePieces (pys "developer") []).map Piece.pg ∧
    CLAUSE_DEV_SQ ∈ (jobWherePieces (pys "developer") []).map Piece.sq ∧
    List.IsInfix DEV_PARAMS (jobWhere (pys "developer") []).paramsPg ∧
    devClauseTermsPg.length = 15 ∧
    CLAUSE_DEV_PG = pys "(" ++ pyJoin (pys " OR ") devClauseTermsPg ++ pys ")" ∧
    DEV_PARAMS.length = 15 :=
  C3_amended_developer_token_clause (pys "developer") [] (by decide)

/-- Modelled from the claim's wording, for comparison with the code: the
union of the separator-delimited token patterns for the designated EU
member codes (`Job._EU_FILTER_CODES` = {DE, ES, NL}), plus a bare "%eu%"
substring pattern, plus a substring pattern for every alias-table name
mapping to one of those member codes. -/
def c4ClaimedPatterns : List PyStr :=
  ([pys "DE", pys "ES", pys "NL"].flatMap (fun code =>
    SEPS_BEFORE.flatMap (fun b =>
      (SEPS_AFTER.map (fun a => pys "%" ++ b ++ pyLower code ++ a ++ pys "%")) ++
      [pys "%" ++ b ++ pyLower code]))) ++
  [pys "%eu%"] ++
  ((COUNTRY_NORM.filter (fun p =>
    decide (p.2 ∈ [pys "DE", pys "ES", pys "NL"] ∧ 2 < p.1.length))).map
    (fun p => pys "%" ++ p.1 ++ pys "%"))

/-- C4 fails on the code as an exact characterization: the compiled EU
filter also contains patterns outside the claimed union — the location-hint
substring patterns for cities mapping to the member codes (e.g. "%berlin%"),
separator-delimited patterns for the token "eu" itself, and an exact-match
equality set — none of which the claim lists. -/
theorem C4_counterexample :
    pys "%berlin%" ∈ (countryFilter (pys "EU")).1 ∧
    pys "%berlin%" ∉ c4ClaimedPatterns ∧
    pys "% eu %" ∈ (countryFilter (pys "EU")).1 ∧
    pys "% eu %" ∉ c4ClaimedPatterns := by
  decide

/-- C4 (amended): the compiled EU location filter consists of the
separator-delimited token patterns for the designated member codes
{DE, ES, NL} AND for the token "eu" itself, plus a bare "%eu%" substring
pattern, plus a substring pattern for every alias-table name (of length
> 2) mapping to a member code or to EU, plus a substring pattern for every
location-hint city mapping to a member code (deduplicated, aliases in
sorted order, hints in table order), together with an exact-equality set
{de, es, eu, nl}. -/
theorem C4_amended_eu_filter :
    (countryFilter (pys "EU")).1 =
      ([pys "DE", pys "ES", pys "NL", pys "EU"].flatMap codeCandidates) ++
      [pys "%eu%", pys "%deu%", pys "%deutschland%", pys "%eur%",
       pys "%europe%", pys "%european union%", pys "%germany%",
       pys "%netherlands%", pys "%spain%", pys "%amsterdam%",
       pys "%barcelona%", pys "%berlin%", pys "%berlin, de%",
       pys "%frankfurt%", pys "%hamburg%", pys "%madrid%", pys "%munich%"] ∧
    (countryFilter (pys "EU")).2 = [pys "de", pys "es", pys "eu", pys "nl"] := by
  decide

-- ------------------- LIKE-metacharacter escaping (C7) ---------------------

/-- Character-wise effect of `Job._escape_like`. -/
def escChar (c : Char) : PyStr :=
  if c = '\\' then pys "\\\\"
  else if c = '%' then pys "\\%"
  else if c = '_' then pys "\\_"
  else [c]

theorem replChar_append (n : Char) (r : PyStr) (a b : PyStr) :
    replChar n r (a ++ b) = replChar n r a ++ replChar n r b := by
  unfold replChar
  simp [List.flatMap_append]

theorem replChar_cons (n : Char) (r : PyStr) (c : Char) (l : PyStr) :
    replChar n r (c :: l) = (if c = n then r else [c]) ++ replChar n r l := by
  unfold replChar
  simp [List.flatMap_cons]

theorem escape_like_cons (c : Char) (u : PyStr) :
    escape_like (c :: u) = escChar c ++ escape_like u := by
  unfold escape_like
  rw [replChar_cons '\\' _ c u, replChar_append, replChar_append]
  congr 1
  by_cases h1 : c = '\\'
  · subst h1; rfl
  · rw [if_neg h1]
    by_cases h2 : c = '%'
    · subst h2; rfl
    · by_cases h3 : c = '_'
      · subst h3; rfl
      · rw [show replChar '%' (pys "\\%") [c] = [c] from by simp [replChar, h2],
          show replChar '_' (pys "\\_") [c] = [c] from by simp [replChar, h3],
          show escChar c = [c] from by simp [escChar, h1, h2, h3]]

/-- The number of unescaped LIKE wildcards ("%" or "_" not preceded by the
escape backslash) in a pattern fragment. -/
def unescapedMeta : PyStr → Nat
  | [] => 0
  | c :: rest =>
    if c = '\\' then
      match rest with
      | [] => 0
      | _ :: rest2 => unescapedMeta rest2
    else (if c = '%' ∨ c = '_' then 1 else 0) + unescapedMeta rest

theorem unescaped_cons_safe (c : Char) (l : PyStr) (h1 : c ≠ '\\')
    (h2 : ¬(c = '%' ∨ c = '_')) : unescapedMeta (c :: l) = unescapedMeta l := by
  conv_lhs => unfold unescapedMeta
  rw [if_neg h1, if_neg h2]
  omega

theorem unescaped_escChar (c : Char) (t : PyStr) :
    unescapedMeta (escChar c ++ t) = unescapedMeta t := by
  unfold escChar
  by_cases h1 : c = '\\'
  · rw [if_pos h1]
    show unescapedMeta ('\\' :: '\\' :: t) = _
    simp [unescapedMeta]
  · rw [if_neg h1]
    by_cases h2 : c = '%'
    · rw [if_pos h2]
      show unescapedMeta ('\\' :: '%' :: t) = _
      simp [unescapedMeta]
    · rw [if_neg h2]
      by_cases h3 : c = '_'
      · rw [if_pos h3]
        show unescapedMeta ('\\' :: '_' :: t) = _
        simp [unescapedMeta]
      · rw [if_neg h3]
        show unescapedMeta (c :: t) = _
        exact unescaped_cons_safe c t h1 (by tauto)

theorem unescaped_escape_append (u t : PyStr) :
    unescapedMeta (escape_like u ++ t) = unescapedMeta t := by
  induction u with
  | nil => rfl
  | cons c u2 ih =>
    rw [escape_like_cons, List.append_assoc, unescaped_escChar, ih]

theorem unescaped_escape (u : PyStr) : unescapedMeta (escape_like u) = 0 := by
  have h := unescaped_escape_append u []
  simpa using h

/-- A pattern is safely escaped when it is one of the two template shapes
the compiler produces — "%" ++ mid ++ "%" or "%" ++ mid — with no unescaped
wildcard inside `mid`: the only wildcards are the intentional wrapper
percents. -/
def SafeLikePattern (p : PyStr) : Prop :=
  ∃ mid, (p = '%' :: (mid ++ ['%']) ∨ p = '%' :: mid) ∧ unescapedMeta mid = 0

theorem safe_wrap (u : PyStr) :
    SafeLikePattern (pys "%" ++ escape_like u ++ pys "%") :=
  ⟨escape_like u, Or.inl (by simp [pys]), unescaped_escape u⟩

theorem safe_sep_full (b a : PyStr) (u : PyStr)
    (hb : ∃ bc, b = [bc] ∧ bc ≠ '\\' ∧ ¬(bc = '%' ∨ bc = '_'))
    (ha : ∃ ac, a = [ac] ∧ ac ≠ '\\' ∧ ¬(ac = '%' ∨ ac = '_')) :
    SafeLikePattern (pys "%" ++ b ++ escape_like u ++ a ++ pys "%") := by
  obtain ⟨bc, rfl, hb1, hb2⟩ := hb
  obtain ⟨ac, rfl, ha1, ha2⟩ := ha
  refine ⟨bc :: (escape_like u ++ [ac]), Or.inl (by simp [pys]), ?_⟩
  rw [unescaped_cons_safe _ _ hb1 hb2, unescaped_escape_append]
  rw [unescaped_cons_safe _ _ ha1 ha2]
  rfl

theorem safe_sep_prefix (b : PyStr) (u : PyStr)
    (hb : ∃ bc, b = [bc] ∧ bc ≠ '\\' ∧ ¬(bc = '%' ∨ bc = '_')) :
    SafeLikePattern (pys "%" ++ b ++ escape_like u) := by
  obtain ⟨bc, rfl, hb1, hb2⟩ := hb
  refine ⟨bc :: escape_like u, Or.inr (by simp [pys]), ?_⟩
  rw [unescaped_cons_safe _ _ hb1 hb2, unescaped_escape]

theorem seps_before_safe : ∀ b ∈ SEPS_BEFORE,
    ∃ bc, b = [bc] ∧ bc ≠ '\\' ∧ ¬(bc = '%' ∨ bc = '_') := by
  intro b hb
  fin_cases hb
  · exact ⟨' ', rfl, by decide, by decide⟩
  · exact ⟨'(', rfl, by decide, by decide⟩
  · exact ⟨',', rfl, by decide, by decide⟩
  · exact ⟨'/', rfl, by decide, by decide⟩
  · exact ⟨'-', rfl, by decide, by decide⟩

theorem seps_after_safe : ∀ a ∈ SEPS_AFTER,
    ∃ ac, a = [ac] ∧ ac ≠ '\\' ∧ ¬(ac = '%' ∨ ac = '_') := by
  intro a ha
  fin_cases ha
  · exact ⟨' ', rfl, by decide, by decide⟩
  · exact ⟨')', rfl, by decide, by decide⟩
  · exact ⟨',', rfl, by decide, by decide⟩
  · exact ⟨'/', rfl, by decide, by decide⟩
  · exact ⟨'-', rfl, by decide, by decide⟩

theorem mem_dedupSeen (l : List PyStr) : ∀ (seen : List PyStr) (x : PyStr),
    x ∈ dedupSeen seen l → x ∈ l := by
  induction l with
  | nil => intro seen x h; simp [dedupSeen] at h
  | cons a rest ih =>
    intro seen x h
    unfold dedupSeen at h
    by_cases ha : a ∈ seen
    · rw [if_pos ha] at h
      exact List.mem_cons_of_mem _ (ih seen x h)
    · rw [if_neg ha] at h
      rcases List.mem_cons.mp h with h1 | h1
      · exact h1 ▸ List.mem_cons_self _ _
      · exact List.mem_cons_of_mem _ (ih _ x h1)

theorem mem_dedupAll (l : List PyStr) (x : PyStr) (h : x ∈ dedupAll l) :
    x ∈ l := mem_dedupSeen l [] x h

theorem mem_insortStr (y x : PyStr) (l : List PyStr)
    (h : x ∈ insortStr y l) : x = y ∨ x ∈ l := by
  induction l with
  | nil => simpa [insortStr] using h
  | cons a rest ih =>
    unfold insortStr at h
    by_cases hle : strLe y a
    · rw [if_pos hle] at h
      rcases List.mem_cons.mp h with h1 | h1
      · exact Or.inl h1
      · exact Or.inr h1
    · rw [if_neg hle] at h
      rcases List.mem_cons.mp h with h1 | h1
      · exact Or.inr (h1 ▸ List.mem_cons_self _ _)
      · rcases ih h1 with h2 | h2
        · exact Or.inl h2
        · exact Or.inr (List.mem_cons_of_mem _ h2)

theorem mem_sortStr (l : List PyStr) (x : PyStr) (h : x ∈ sortStr l) :
    x ∈ l := by
  induction l with
  | nil => simp [sortStr] at h
  | cons a rest ih =>
    unfold sortStr at h ih
    rcases mem_insortStr a x _ h with h1 | h1
    · exact h1 ▸ List.mem_cons_self _ _
    · exact List.mem_cons_of_mem _ (ih h1)

theorem country_patterns_safe (codes : List PyStr) :
    ∀ p ∈ (country_patterns codes).1, SafeLikePattern p := by
  intro p hp
  unfold country_patterns at hp
  have hp2 := mem_dedupAll _ _ hp
  rcases List.mem_append.mp hp2 with h1 | h1
  · rcases List.mem_append.mp h1 with h2 | h2
    · rcases List.mem_append.mp h2 with h3 | h3
      · rcases List.mem_flatMap.mp h3 with ⟨code, _, hpc⟩
        unfold codeCandidates at hpc
        rcases List.mem_append.mp hpc with h4 | h4
        · rcases List.mem_flatMap.mp h4 with ⟨b, hb, hp4⟩
          rcases List.mem_append.mp hp4 with h5 | h5
          · rcases List.mem_map.mp h5 with ⟨a, ha, hpe⟩
            rw [← hpe]
            exact safe_sep_full b a _ (seps_before_safe b hb) (seps_after_safe a ha)
          · rw [List.mem_singleton.mp h5]
            exact safe_sep_prefix b _ (seps_before_safe b hb)
        · by_cases hlen : 2 < code.length
          · rw [if_pos hlen] at h4
            rw [List.mem_singleton.mp h4]
            exact safe_wrap _
          · rw [if_neg hlen] at h4
            simp at h4
      · by_cases heu : pys "EU" ∈ normalizedCodes codes
        · rw [if_pos heu] at h3
          rw [List.mem_singleton.mp h3]
          exact safe_wrap _
        · rw [if_neg heu] at h3
          simp at h3
    · rcases List.mem_map.mp h2 with ⟨a, _, hpe⟩
      rw [← hpe]
      exact safe_wrap _
  · unfold hintLikes at h1
    rcases List.mem_map.mp h1 with ⟨hint, _, hpe⟩
    rw [← hpe]
    exact safe_wrap _

/-- All LIKE patterns `Job._where` embeds as parameters, built from
user-derived text: the core title pattern, the remote pattern, the
developer-synonym patterns, and the country patterns (codes, aliases,
city hints, free-text fallback). -/
def allLikePatterns (title country : PyStr) : List PyStr :=
  (match titleSpec title with
   | none => []
   | some (core, remoteFlag, devFlag) =>
     (if core ≠ [] then [pys "%" ++ escape_like core ++ pys "%"] else []) ++
     (if remoteFlag then [pys "%" ++ escape_like (pys "remote") ++ pys "%"] else []) ++
     (if devFlag then DEV_PATTERNS else [])) ++
  (countryFilter country).1

/-- C7: every LIKE pattern the compiler builds from user-derived text has
its "%", "_" and backslash occurrences escaped before embedding — each
pattern is a template "%…%" (or "%…", for the separator-bounded
end-of-string code patterns) whose interior contains no unescaped wildcard,
so LIKE metacharacters in the input match only literally. -/
theorem C7_like_patterns_escaped (title country : PyStr) (p : PyStr)
    (hp : p ∈ allLikePatterns title country) : SafeLikePattern p := by
  unfold allLikePatterns at hp
  rcases List.mem_append.mp hp with h1 | h1
  · cases hts : titleSpec title with
    | none => rw [hts] at h1; simp at h1
    | some v =>
      obtain ⟨core, remoteFlag, devFlag⟩ := v
      rw [hts] at h1
      rcases List.mem_append.mp h1 with h2 | h2
      · rcases List.mem_append.mp h2 with h3 | h3
        · by_cases hc : core ≠ []
          · rw [if_pos hc] at h3
            rw [List.mem_singleton.mp h3]
            exact safe_wrap _
          · rw [if_neg hc] at h3
            simp at h3
        · by_cases hr : remoteFlag
          · rw [if_pos hr] at h3
            rw [List.mem_singleton.mp h3]
            exact safe_wrap _
          · rw [if_neg hr] at h3
            simp at h3
      · by_cases hd : devFlag
        · rw [if_pos hd] at h2
          unfold DEV_PATTERNS at h2
          rcases List.mem_map.mp h2 with ⟨t, _, hpe⟩
          rw [← hpe]
          exact safe_wrap _
        · rw [if_neg hd] at h2
          simp at h2
  · unfold countryFilter at h1
    by_cases hc0 : country = []
    · rw [if_pos hc0] at h1
      simp at h1
    · rw [if_neg hc0] at h1
      by_cases hc1 : pyLower (pyStrip country) = []
      · simp only [hc1, reduceIte] at h1
        simp at h1
      · simp only [hc1, if_neg, reduceIte] at h1
        by_cases hhp : pyUpper (pyLower (pyStrip country)) = pys "HIGH_PAY"
        · rw [if_pos hhp] at h1
          rcases List.mem_map.mp h1 with ⟨city, _, hpe⟩
          rw [← hpe]
          exact safe_wrap _
        · rw [if_neg hhp] at h1
          by_cases heu : pyUpper (pyLower (pyStrip country)) = pys "EU"
          · rw [if_pos heu] at h1
            exact country_patterns_safe _ p h1
          · rw [if_neg heu] at h1
            by_cases hch : pyUpper (pyLower (pyStrip country)) = pys "CH"
            · rw [if_pos hch] at h1
              exact country_patterns_safe _ p h1
            · rw [if_neg hch] at h1
              by_cases hcode : (pyUpper (pyLower (pyStrip country))).length = 2 ∧
                  (pyUpper (pyLower (pyStrip country))).all pyIsAlphaChar
              · rw [if_pos hcode] at h1
                exact country_patterns_safe _ p h1
              · rw [if_neg hcode] at h1
                rw [List.mem_singleton.mp h1]
                exact safe_wrap _

/-- Witness for C7: the pattern compiled from the title "a%b" — the "%" in
the input is escaped, yielding the pattern "%a\%b%". -/
theorem C7_witness : SafeLikePattern (pys "%a\\%b%") :=
  C7_like_patterns_escaped (pys "a%b") [] (pys "%a\\%b%") (by decide)

-- ------------------- HIGH_PAY ordering and filter (C8) --------------------

/-- `(date IS NULL) ASC`: rows with a null date sort last. -/
def dateNullRank (r : Row) : Nat := if r.date = none then 1 else 0

/-- Strict lexicographic `<` on strings by code point. -/
def strLt (a b : PyStr) : Bool := strLe a b && decide (a ≠ b)

/-- `date DESC` on two non-null dates. -/
def optDateGt (a b : Option PyStr) : Bool :=
  match a, b with
  | some x, some y => strLt y x
  | _, _ => false

/-- The default ordering of `Job._order_by`:
`ORDER BY (date IS NULL) ASC, date DESC, id DESC`. -/
def defaultBefore (a b : Row) : Prop :=
  dateNullRank a < dateNullRank b ∨
  (dateNullRank a = dateNullRank b ∧ optDateGt a.date b.date = true) ∨
  (dateNullRank a = dateNullRank b ∧ a.date = b.date ∧ b.id < a.id)

/-- The CASE tier of the HIGH_PAY ordering of `Job._order_by`:
San Francisco 0, New York 1, Zurich 2, everything else 3 (the WHEN arms in
source order, each a LIKE test against the lowered location). -/
def highPayTier (r : Row) : Nat :=
  if likeMatch (pys "%san francisco%") (pyLower r.location) then 0
  else if likeMatch (pys "%new york%") (pyLower r.location) then 1
  else if likeMatch (pys "%zurich%") (pyLower r.location) then 2
  else 3

/-- The HIGH_PAY ordering: the CASE tier first, then the default ordering
as the tie-break. -/
def highPayBefore (a b : Row) : Prop :=
  highPayTier a < highPayTier b ∨
  (highPayTier a = highPayTier b ∧ defaultBefore a b)

theorem likeMatch_city_sf (s : PyStr) :
    likeMatch (pys "%san francisco%") s = isSubstr (pys "san francisco") s := by
  rw [show pys "%san francisco%" = '%' :: (pys "san francisco" ++ ['%']) from rfl]
  exact likeMatch_substr _ s (by decide)

theorem likeMatch_city_ny (s : PyStr) :
    likeMatch (pys "%new york%") s = isSubstr (pys "new york") s := by
  rw [show pys "%new york%" = '%' :: (pys "new york" ++ ['%']) from rfl]
  exact likeMatch_substr _ s (by decide)

theorem likeMatch_city_zh (s : PyStr) :
    likeMatch (pys "%zurich%") s = isSubstr (pys "zurich") s := by
  rw [show pys "%zurich%" = '%' :: (pys "zurich" ++ ['%']) from rfl]
  exact likeMatch_substr _ s (by decide)

/-- C8: for pseudo-country "HIGH_PAY" the compiler bypasses the code-token
pattern logic — the filter is exactly the three city substring patterns
plus the three exact city equalities — and a row matches iff its lowered
location contains "new york", "san francisco" or "zurich" as a substring
or equals one of them; the HIGH_PAY ordering tiers rows San Francisco
first, New York second, Zurich third, everything else last, with the
default null-dates-last / date-descending / id-descending order as the
tie-break within a tier. -/
theorem C8_high_pay_filter_and_order :
    countryFilter (pys "HIGH_PAY") =
      ([pys "%new york%", pys "%san francisco%", pys "%zurich%"],
       [pys "new york", pys "san francisco", pys "zurich"]) ∧
    (∀ r : Row, evalWherePg [] (pys "HIGH_PAY") r =
      (isSubstr (pys "new york") (pyLower r.location) ||
       isSubstr (pys "san francisco") (pyLower r.location) ||
       isSubstr (pys "zurich") (pyLower r.location) ||
       decide (pyLower r.location = pys "new york") ||
       decide (pyLower r.location = pys "san francisco") ||
       decide (pyLower r.location = pys "zurich"))) ∧
    (∀ r : Row, isSubstr (pys "san francisco") (pyLower r.location) = true →
      highPayTier r = 0) ∧
    (∀ r : Row, isSubstr (pys "san francisco") (pyLower r.location) = false →
      isSubstr (pys "new york") (pyLower r.location) = true →
      highPayTier r = 1) ∧
    (∀ r : Row, isSubstr (pys "san francisco") (pyLower r.location) = false →
      isSubstr (pys "new york") (pyLower r.location) = false →
      isSubstr (pys "zurich") (pyLower r.location) = true →
      highPayTier r = 2) ∧
    (∀ r : Row, isSubstr (pys "san francisco") (pyLower r.location) = false →
      isSubstr (pys "new york") (pyLower r.location) = false →
      isSubstr (pys "zurich") (pyLower r.location) = false →
      highPayTier r = 3) ∧
    (∀ a b : Row, highPayTier a < highPayTier b → highPayBefore a b) ∧
    (∀ a b : Row, highPayTier a = highPayTier b →
      (highPayBefore a b ↔ defaultBefore a b)) := by
  refine ⟨by decide, ?_, ?_, ?_, ?_, ?_, fun a b h => Or.inl h, ?_⟩
  · intro r
    show (evalTitlePg [] r && evalCountry (pys "HIGH_PAY") r) = _
    rw [show evalTitlePg [] r = true from rfl, Bool.true_and]
    unfold evalCountry
    simp only [show countryFilter (pys "HIGH_PAY") =
      ([pys "%new york%", pys "%san francisco%", pys "%zurich%"],
       [pys "new york", pys "san francisco", pys "zurich"]) from by decide]
    rw [if_neg (by simp)]
    simp only [show ([pys "new york", pys "san francisco",
        pys "zurich"].map pyLower) =
      [pys "new york", pys "san francisco", pys "zurich"] from by decide]
    simp only [List.any_cons, List.any_nil, lowerLike,
      likeMatch_city_ny, likeMatch_city_sf, likeMatch_city_zh,
      Bool.or_false, Bool.or_assoc]
  · intro r h
    unfold highPayTier
    rw [likeMatch_city_sf, if_pos h]
  · intro r h1 h2
    unfold highPayTier
    rw [likeMatch_city_sf, likeMatch_city_ny, if_neg (by simp [h1]), if_pos h2]
  · intro r h1 h2 h3
    unfold highPayTier
    rw [likeMatch_city_sf, likeMatch_city_ny, likeMatch_city_zh,
      if_neg (by simp [h1]), if_neg (by simp [h2]), if_pos h3]
  · intro r h1 h2 h3
    unfold highPayTier
    rw [likeMatch_city_sf, likeMatch_city_ny, likeMatch_city_zh,
      if_neg (by simp [h1]), if_neg (by simp [h2]), if_neg (by simp [h3])]
  · intro a b h
    constructor
    · rintro (hlt | ⟨_, hd⟩)
      · omega
      · exact hd
    · intro hd
      exact Or.inr ⟨h, hd⟩

/-- Witness for C8 at concrete rows: a San Francisco row is tier 0, a
New York row tier 1, and the tie-break inside a tier is the default
date/id order. -/
theorem C8_witness :
    highPayTier ⟨1, [], [], [], pys "San Francisco, CA", none⟩ = 0 ∧
    highPayTier ⟨2, [], [], [], pys "New York City", none⟩ = 1 ∧
    evalWherePg [] (pys "HIGH_PAY") ⟨3, [], [], [], pys "Berlin", none⟩ =
      false := by
  refine ⟨C8_high_pay_filter_and_order.2.2.1 _ (by decide),
    C8_high_pay_filter_and_order.2.2.2.1 _ (by decide) (by decide), ?_⟩
  rw [C8_high_pay_filter_and_order.2.1 ⟨3, [], [], [], pys "Berlin", none⟩]
  decide

-- -------------------- Pagination (main_controller.py) ---------------------

/-- `PER_PAGE_MAX` config default. -/
def PER_PAGE_MAX : Int := 100

/-- `page = request.args.get("page", default=1, type=int) or 1` followed by
`if page < 1: page = 1` (`or 1` turns the falsy 0 into 1). -/
def pgPage (pageArg : Int) : Int :=
  let page0 := if pageArg = 0 then 1 else pageArg
  if page0 < 1 then 1 else page0

/-- `per_page_req = args.get("per_page", default=20, type=int) or 20`
clamped by `max(10, min(per_page_req, PER_PAGE_MAX))`. -/
def pgPerPage (perPageArg : Int) : Int :=
  max 10 (min (if perPageArg = 0 then 20 else perPageArg) PER_PAGE_MAX)

/-- `pages = (total + per_page - 1) // per_page if total else 1`. -/
def pgPages (total : Nat) (perPage : Int) : Nat :=
  if total ≠ 0 then (total + perPage.toNat - 1) / perPage.toNat else 1

structure PageData where
  page : Int
  perPage : Int
  pages : Nat
  offset : Int
  hasPrev : Bool
  hasNext : Bool
deriving DecidableEq

/-- The pagination computation of the index route of
`app/controllers/main_controller.py` (lines 67–86 and 113–121). -/
def paginate (pageArg perPageArg : Int) (total : Nat) : PageData :=
  { page := pgPage pageArg,
    perPage := pgPerPage perPageArg,
    pages := pgPages total (pgPerPage perPageArg),
    offset := (max 1 (pgPage pageArg) - 1) * pgPerPage perPageArg,
    hasPrev := decide (1 < pgPage pageArg),
    hasNext := decide (pgPage pageArg < (pgPages total (pgPerPage perPageArg) : Int)) }

/-- C6: for every caller-supplied page and per_page and every total,
per_page is clamped to [10, 100], page is floored at 1,
offset = (page - 1) * per_page, pages ≥ 1, for positive totals
pages = ceil(total / per_page) — i.e. (pages-1)*per_page < total ≤
pages*per_page — and has_prev/has_next hold exactly for page > 1 /
page < pages. -/
theorem C6_pagination_invariants (pageArg perPageArg : Int) (total : Nat) :
    10 ≤ (paginate pageArg perPageArg total).perPage ∧
    (paginate pageArg perPageArg total).perPage ≤ 100 ∧
    1 ≤ (paginate pageArg perPageArg total).page ∧
    (paginate pageArg perPageArg total).offset =
      ((paginate pageArg perPageArg total).page - 1) *
        (paginate pageArg perPageArg total).perPage ∧
    1 ≤ (paginate pageArg perPageArg total).pages ∧
    (0 < total →
      ((paginate pageArg perPageArg total).pages - 1) *
          (paginate pageArg perPageArg total).perPage.toNat < total ∧
      total ≤ (paginate pageArg perPageArg total).pages *
          (paginate pageArg perPageArg total).perPage.toNat) ∧
    ((paginate pageArg perPageArg total).hasPrev = true ↔
      1 < (paginate pageArg perPageArg total).page) ∧
    ((paginate pageArg perPageArg total).hasNext = true ↔
      (paginate pageArg perPageArg total).page <
        ((paginate pageArg perPageArg total).pages : Int)) := by
  have hpp10 : 10 ≤ pgPerPage perPageArg := by
    unfold pgPerPage
    omega
  have hpp100 : pgPerPage perPageArg ≤ 100 := by
    unfold pgPerPage PER_PAGE_MAX
    omega
  have hpage : 1 ≤ pgPage pageArg := by
    simp only [pgPage]
    split_ifs <;> omega
  have hPnat : 10 ≤ (pgPerPage perPageArg).toNat := by omega
  have hpages1 : 1 ≤ pgPages total (pgPerPage perPageArg) := by
    unfold pgPages
    by_cases ht : total ≠ 0
    · rw [if_pos ht]
      rw [Nat.one_le_div_iff (by omega)]
      omega
    · rw [if_neg ht]
  have hsandwich : 0 < total →
      (pgPages total (pgPerPage perPageArg) - 1) * (pgPerPage perPageArg).toNat <
        total ∧
      total ≤ pgPages total (pgPerPage perPageArg) * (pgPerPage perPageArg).toNat := by
    intro ht
    unfold pgPages
    rw [if_pos (by omega)]
    set P := (pgPerPage perPageArg).toNat with hP
    set q := (total + P - 1) / P with hq
    set r := (total + P - 1) % P with hr
    have hdm : q * P + r = total + P - 1 := by
      rw [hq, hr, Nat.mul_comm]
      exact Nat.div_add_mod _ _
    have hmod : r < P := by
      rw [hr]
      exact Nat.mod_lt _ (by omega)
    have hq1 : 1 ≤ q := by
      rw [hq, Nat.one_le_div_iff (by omega)]
      omega
    have hsub : (q - 1) * P = q * P - P := by
      rw [Nat.sub_mul, Nat.one_mul]
    have hple : P ≤ q * P := Nat.le_mul_of_pos_left P (by omega)
    rw [hsub]
    generalize hqp : q * P = qp at hdm hple ⊢
    omega
  exact ⟨hpp10, hpp100, hpage,
    by
      show (max 1 (pgPage pageArg) - 1) * pgPerPage perPageArg =
        (pgPage pageArg - 1) * pgPerPage perPageArg
      rw [show max 1 (pgPage pageArg) = pgPage pageArg from by omega],
    hpages1, hsandwich,
    ⟨fun h => of_decide_eq_true h, fun h => decide_eq_true h⟩,
    ⟨fun h => of_decide_eq_true h, fun h => decide_eq_true h⟩⟩

/-- Witness for C6: the ceil-division sandwich at total = 25, default
arguments (per_page 20, page 1): pages = 2 and 20 < 25 ≤ 40. -/
theorem C6_witness :
    ((paginate 0 0 25).pages - 1) * (paginate 0 0 25).perPage.toNat < 25 ∧
    25 ≤ (paginate 0 0 25).pages * (paginate 0 0 25).perPage.toNat :=
  (C6_pagination_invariants 0 0 25).2.2.2.2.2.1 (by decide)

-- ---------- Rendered-number input families for parse_salary_query ----------

/-- Decimal rendering of a natural number (most significant digit first),
fuelled by `n + 1` so the kernel can evaluate it; `natDigits 0 = "0"`. -/
def natDigitsF : Nat → Nat → PyStr
  | 0, _ => []
  | fuel + 1, n =>
    if n < 10 then [Nat.digitChar n]
    else natDigitsF fuel (n / 10) ++ [Nat.digitChar (n % 10)]

def natDigits (n : Nat) : PyStr := natDigitsF (n + 1) n

example : natDigits 120 = pys "120" := by decide
example : natDigits 0 = pys "0" := by decide

theorem digitChar_isDigit (d : Nat) (h : d < 10) :
    pyIsDigit (Nat.digitChar d) = true := by
  interval_cases d <;> decide

theorem digitChar_val (d : Nat) (h : d < 10) :
    (Nat.digitChar d).toNat - 48 = d := by
  interval_cases d <;> decide

theorem natDigitsF_all_digit : ∀ (fuel n : Nat), ∀ c ∈ natDigitsF fuel n,
    pyIsDigit c = true := by
  intro fuel
  induction fuel with
  | zero => intro n c hc; simp [natDigitsF] at hc
  | succ fuel ih =>
    intro n c hc
    unfold natDigitsF at hc
    by_cases hn : n < 10
    · rw [if_pos hn] at hc
      rw [List.mem_singleton.mp hc]
      exact digitChar_isDigit n hn
    · rw [if_neg hn] at hc
      rcases List.mem_append.mp hc with h1 | h1
      · exact ih (n / 10) c h1
      · rw [List.mem_singleton.mp h1]
        exact digitChar_isDigit (n % 10) (Nat.mod_lt _ (by omega))

theorem natDigits_all_digit (n : Nat) : ∀ c ∈ natDigits n, pyIsDigit c = true :=
  natDigitsF_all_digit (n + 1) n

theorem natDigitsF_ne_nil (fuel n : Nat) (h : n < fuel) :
    natDigitsF fuel n ≠ [] := by
  cases fuel with
  | zero => omega
  | succ fuel =>
    unfold natDigitsF
    by_cases hn : n < 10
    · rw [if_pos hn]
      simp
    · rw [if_neg hn]
      simp

theorem natDigits_ne_nil (n : Nat) : natDigits n ≠ [] :=
  natDigitsF_ne_nil (n + 1) n (by omega)

theorem natDigitsF_decode : ∀ (fuel n : Nat), n < fuel →
    (natDigitsF fuel n).foldl (fun a c => a * 10 + (c.toNat - 48)) 0 = n := by
  intro fuel
  induction fuel with
  | zero => intro n h; omega
  | succ fuel ih =>
    intro n h
    unfold natDigitsF
    by_cases hn : n < 10
    · rw [if_pos hn]
      simp [digitChar_val n hn]
    · rw [if_neg hn]
      rw [List.foldl_append]
      have hlt : n / 10 < fuel := by
        have := Nat.div_lt_self (show 0 < n by omega) (show 1 < 10 by omega)
        omega
      rw [ih (n / 10) hlt]
      simp only [List.foldl_cons, List.foldl_nil]
      rw [digitChar_val (n % 10) (Nat.mod_lt _ (by omega))]
      omega

theorem natDigits_decode (n : Nat) :
    (natDigits n).foldl (fun a c => a * 10 + (c.toNat - 48)) 0 = n :=
  natDigitsF_decode (n + 1) n (by omega)

/-- The character classes a decimal digit avoids, and its stability under
`str.lower()`. -/
theorem digit_char_facts (c : Char) (h : pyIsDigit c = true) :
    NUMCLS c = true ∧ pyIsSpace c = false ∧ c ≠ 'k' ∧ c ≠ 'K' ∧
    c ≠ '-' ∧ c ≠ '–' ∧ c ≠ '>' ∧ c ≠ '<' ∧ c ≠ '=' ∧
    c ≠ ',' ∧ c ≠ '.' ∧ pyLowerChar c = c := by
  have h0 : ('0' : Char) ≤ c ∧ c ≤ '9' := by
    simpa [pyIsDigit] using h
  have hne : ∀ d : Char, ¬(('0' : Char) ≤ d ∧ d ≤ '9') → c ≠ d := by
    intro d hd he
    exact hd (he ▸ h0)
  refine ⟨by simp [NUMCLS, h], ?_, hne 'k' (by decide), hne 'K' (by decide),
    hne '-' (by decide), hne '–' (by decide), hne '>' (by decide),
    hne '<' (by decide), hne '=' (by decide), hne ',' (by decide),
    hne '.' (by decide), ?_⟩
  · have hs : ∀ d : Char, pyIsSpace d = true → ¬(('0' : Char) ≤ d ∧ d ≤ '9') := by
      intro d hd
      simp only [pyIsSpace, decide_eq_true_eq] at hd
      rcases hd with rfl | rfl | rfl | rfl | rfl | rfl <;> decide
    cases hsp : pyIsSpace c with
    | false => rfl
    | true => exact absurd h0 (hs c hsp)
  · unfold pyLowerChar
    cases hl : LOWER_MAP.lookup c with
    | none => rfl
    | some v =>
      have hp : (c, v) ∈ LOWER_MAP := lookup_mem_pairs _ _ _ hl
      have hall : ∀ p ∈ LOWER_MAP, pyIsDigit p.1 = false := all_list _ _ (by decide)
      have := hall _ hp
      simp only at this
      rw [h] at this
      exact absurd this (by simp)

theorem map_id_of_fixed (f : Char → Char) (l : PyStr)
    (h : ∀ c ∈ l, f c = c) : l.map f = l := by
  induction l with
  | nil => rfl
  | cons c t ih =>
    rw [List.map_cons, h c (List.mem_cons_self _ _),
      ih (fun d hd => h d (List.mem_cons_of_mem _ hd))]

theorem takeWhile_all_append (p : Char → Bool) (l : PyStr) (c : Char)
    (r : PyStr) (hl : ∀ d ∈ l, p d = true) (hc : p c = false) :
    (l ++ c :: r).takeWhile p = l := by
  induction l with
  | nil => simp [List.takeWhile, hc]
  | cons a t ih =>
    rw [List.cons_append, List.takeWhile_cons,
      if_pos (hl a (List.mem_cons_self _ _)),
      ih (fun d hd => hl d (List.mem_cons_of_mem _ hd))]

theorem wsSplits_cons_nospace (c : Char) (l : PyStr)
    (h : pyIsSpace c = false) : wsSplits (c :: l) = [([], c :: l)] := by
  unfold wsSplits starSplits
  rw [List.takeWhile_cons, if_neg (by simp [h])]
  rfl

theorem starSplits_eq_cons (cls : Char → Bool) (s : PyStr) :
    ∃ T, starSplits cls s =
      (s.take (s.takeWhile cls).length, s.drop (s.takeWhile cls).length) :: T := by
  simp only [starSplits]
  rw [List.range_succ_eq_map, List.map_cons]
  exact ⟨_, by rw [Nat.sub_zero]⟩

theorem findSome_cons_some {α β : Type} (f : α → Option β) (x : α)
    (l : List α) (b : β) (h : f x = some b) :
    (x :: l).findSome? f = some b := by
  rw [List.findSome?_cons, h]

theorem findSome_none_of_all {α β : Type} (f : α → Option β) (l : List α)
    (h : ∀ x ∈ l, f x = none) : l.findSome? f = none := by
  induction l with
  | nil => rfl
  | cons x t ih =>
    rw [List.findSome?_cons, h x (List.mem_cons_self _ _)]
    exact ih (fun y hy => h y (List.mem_cons_of_mem _ hy))

-- Success of the standalone number grab on "digits k".

theorem grabNum_digits_k (c0 : Char) (d : PyStr)
    (hd : ∀ c ∈ d, pyIsDigit c = true) :
    grabNum c0 (d ++ ['k']) = (c0 :: (d ++ ['k']), []) := by
  have hm : (d ++ ['k']).takeWhile NUMCLS = d :=
    takeWhile_all_append NUMCLS d 'k' []
      (fun c hc => (digit_char_facts c (hd c hc)).1) (by decide)
  simp only [grabNum]
  rw [hm, List.drop_left]
  simp

theorem findallNum_digits_k (d : PyStr) (hne : d ≠ [])
    (hd : ∀ c ∈ d, pyIsDigit c = true) :
    findallNum (d ++ ['k']) = [d ++ ['k']] := by
  obtain ⟨c0, d', rfl⟩ := List.exists_cons_of_ne_nil hne
  have h0 : pyIsDigit c0 = true := hd c0 (List.mem_cons_self _ _)
  have hd' : ∀ c ∈ d', pyIsDigit c = true :=
    fun c hc => hd c (List.mem_cons_of_mem _ hc)
  have hg := grabNum_digits_k c0 d' hd'
  unfold findallNum
  rw [List.cons_append]
  simp [findallNumF, h0, hg]

theorem rstripK_digits (d : PyStr) (hne : d ≠ [])
    (hd : ∀ c ∈ d, pyIsDigit c = true) :
    rstripK (d ++ ['k']) = d := by
  have hrev : d.reverse ≠ [] := by simpa using hne
  obtain ⟨x, xs, hx⟩ := List.exists_cons_of_ne_nil hrev
  have hxd : pyIsDigit x = true := by
    have hmem : x ∈ d.reverse := by rw [hx]; exact List.mem_cons_self _ _
    exact hd x (List.mem_reverse.mp hmem)
  have h1 : (d ++ ['k']).reverse = 'k' :: d.reverse := by simp
  unfold rstripK
  rw [h1, hx]
  rw [show ('k' :: x :: xs).dropWhile (fun c => c = 'k') = x :: xs from by
    simp [List.dropWhile_cons, (digit_char_facts x hxd).2.2.1]]
  rw [← hx, List.reverse_reverse]

theorem parseMoneyToken_digits_k (d : PyStr) (hne : d ≠ [])
    (hd : ∀ c ∈ d, pyIsDigit c = true) :
    parseMoneyToken (d ++ ['k']) =
      some ((d.foldl (fun a c => a * 10 + (c.toNat - 48)) 0) * 1000) := by
  have hlow : pyLower (d ++ ['k']) = d ++ ['k'] := by
    unfold pyLower
    apply map_id_of_fixed
    intro c hc
    rcases List.mem_append.mp hc with h | h
    · exact (digit_char_facts c (hd c h)).2.2.2.2.2.2.2.2.2.2.2
    · rw [List.mem_singleton.mp h]; decide
  have hfc : (d ++ ['k']).filter (fun c => c ≠ ',') = d ++ ['k'] := by
    rw [List.filter_eq_self]
    intro c hc
    rcases List.mem_append.mp hc with h | h
    · simpa using (digit_char_facts c (hd c h)).2.2.2.2.2.2.2.2.2.1
    · rw [List.mem_singleton.mp h]; decide
  have hfs : (d ++ ['k']).filter (fun c => c ≠ ' ') = d ++ ['k'] := by
    rw [List.filter_eq_self]
    intro c hc
    rcases List.mem_append.mp hc with h | h
    · have hsp := (digit_char_facts c (hd c h)).2.1
      have hce : c ≠ ' ' := fun he => by
        rw [he] at hsp; exact absurd hsp (by decide)
      simp [hce]
    · rw [List.mem_singleton.mp h]; decide
  have hfd : d.filter (fun c => c ≠ '.') = d := by
    rw [List.filter_eq_self]
    intro c hc
    simpa using (digit_char_facts c (hd c hc)).2.2.2.2.2.2.2.2.2.2.1
  have hall : d.all pyIsDigit = true := List.all_eq_true.mpr hd
  simp only [parseMoneyToken]
  rw [hlow, hfc, hfs, List.getLast?_concat, if_pos rfl,
    rstripK_digits d hne hd, hfd, if_pos ⟨hne, hall⟩]

theorem money_digits_k (d : PyStr) (hne : d ≠ [])
    (hd : ∀ c ∈ d, pyIsDigit c = true) :
    parse_money_numbers (d ++ ['k']) =
      [(d.foldl (fun a c => a * 10 + (c.toNat - 48)) 0) * 1000] := by
  unfold parse_money_numbers
  rw [findallNum_digits_k d hne hd]
  simp [List.filterMap_cons, parseMoneyToken_digits_k d hne hd]

-- Success of the anchored matchers on rendered "digits k" material.

theorem numCands_digits_k (c0 : Char) (d r : PyStr) (h0 : pyIsDigit c0 = true)
    (hd : ∀ c ∈ d, pyIsDigit c = true) :
    ∃ T, numCands (c0 :: (d ++ 'k' :: r)) = (c0 :: (d ++ ['k']), r) :: T := by
  have htw : (d ++ 'k' :: r).takeWhile NUMCLS = d :=
    takeWhile_all_append NUMCLS d 'k' r
      (fun c hc => (digit_char_facts c (hd c hc)).1) (by decide)
  obtain ⟨T0, hsp⟩ := starSplits_eq_cons NUMCLS (d ++ 'k' :: r)
  rw [htw, List.take_left, List.drop_left] at hsp
  unfold numCands
  dsimp only []
  rw [if_pos h0, hsp, List.flatMap_cons]
  exact ⟨_, rfl⟩

theorem reSearch_at_zero {α : Type} (f : PyStr → Option α) (c : Char)
    (t : PyStr) (a : α) (h : f (c :: t) = some a) :
    reSearch f (c :: t) = some (0, a) := by
  simp [reSearch, searchAux, h]

theorem rangeAt_family (a0 b0 : Char) (dA dB : PyStr)
    (ha0 : pyIsDigit a0 = true) (hb0 : pyIsDigit b0 = true)
    (hA : ∀ c ∈ dA, pyIsDigit c = true) (hB : ∀ c ∈ dB, pyIsDigit c = true) :
    rangeAt (a0 :: (dA ++ 'k' :: '-' :: (b0 :: (dB ++ ['k'])))) =
      some (a0 :: (dA ++ ['k']), b0 :: (dB ++ ['k']),
        dA.length + dB.length + 5) := by
  have hb0sp : pyIsSpace b0 = false := (digit_char_facts b0 hb0).2.1
  obtain ⟨T1, hnc1⟩ :=
    numCands_digits_k a0 dA ('-' :: (b0 :: (dB ++ ['k']))) ha0 hA
  obtain ⟨T2, hnc2⟩ := numCands_digits_k b0 dB [] hb0 hB
  unfold rangeAt
  rw [hnc1]
  apply findSome_cons_some
  show (wsSplits ('-' :: (b0 :: (dB ++ ['k'])))).findSome?
      (fun w1 => rangeDash (a0 :: (dA ++ 'k' :: '-' :: (b0 :: (dB ++ ['k']))))
        (a0 :: (dA ++ ['k'])) w1.2) =
    some (a0 :: (dA ++ ['k']), b0 :: (dB ++ ['k']), dA.length + dB.length + 5)
  rw [wsSplits_cons_nospace '-' _ (by decide)]
  apply findSome_cons_some
  show rangeDash (a0 :: (dA ++ 'k' :: '-' :: (b0 :: (dB ++ ['k']))))
      (a0 :: (dA ++ ['k'])) ('-' :: (b0 :: (dB ++ ['k']))) =
    some (a0 :: (dA ++ ['k']), b0 :: (dB ++ ['k']), dA.length + dB.length + 5)
  unfold rangeDash
  dsimp only []
  rw [if_pos (Or.inl rfl)]
  rw [wsSplits_cons_nospace b0 _ hb0sp]
  apply findSome_cons_some
  show (numCands (b0 :: (dB ++ ['k']))).findSome?
      (fun g2p => some (a0 :: (dA ++ ['k']), g2p.1,
        (a0 :: (dA ++ 'k' :: '-' :: (b0 :: (dB ++ ['k'])))).length -
          g2p.2.length)) =
    some (a0 :: (dA ++ ['k']), b0 :: (dB ++ ['k']), dA.length + dB.length + 5)
  rw [hnc2]
  apply findSome_cons_some
  simp
  omega

theorem boundAt_gt_family (b0 : Char) (dB : PyStr)
    (hb0 : pyIsDigit b0 = true) (hB : ∀ c ∈ dB, pyIsDigit c = true) :
    boundAt '>' ('>' :: (b0 :: (dB ++ ['k']))) =
      some (b0 :: (dB ++ ['k']), dB.length + 3) := by
  have hb0sp : pyIsSpace b0 = false := (digit_char_facts b0 hb0).2.1
  have hbeq : ¬(b0 = '=') := (digit_char_facts b0 hb0).2.2.2.2.2.2.2.2.1
  obtain ⟨T2, hnc2⟩ := numCands_digits_k b0 dB [] hb0 hB
  unfold boundAt
  dsimp only []
  rw [if_pos rfl, wsSplits_cons_nospace b0 _ hb0sp]
  apply findSome_cons_some
  show (eqSplits (b0 :: (dB ++ ['k']))).findSome?
      (fun e => boundNum ('>' :: (b0 :: (dB ++ ['k']))) e) =
    some (b0 :: (dB ++ ['k']), dB.length + 3)
  unfold eqSplits
  dsimp only []
  rw [if_neg hbeq]
  apply findSome_cons_some
  show boundNum ('>' :: (b0 :: (dB ++ ['k']))) (b0 :: (dB ++ ['k'])) =
    some (b0 :: (dB ++ ['k']), dB.length + 3)
  unfold boundNum
  rw [wsSplits_cons_nospace b0 _ hb0sp]
  apply findSome_cons_some
  show (numCands (b0 :: (dB ++ ['k']))).findSome?
      (fun g => some (g.1, ('>' :: (b0 :: (dB ++ ['k']))).length - g.2.length)) =
    some (b0 :: (dB ++ ['k']), dB.length + 3)
  rw [hnc2]
  apply findSome_cons_some
  simp

theorem boundAt_le_family (b0 : Char) (dB : PyStr)
    (hb0 : pyIsDigit b0 = true) (hB : ∀ c ∈ dB, pyIsDigit c = true) :
    boundAt '<' ('<' :: '=' :: (b0 :: (dB ++ ['k']))) =
      some (b0 :: (dB ++ ['k']), dB.length + 4) := by
  have hb0sp : pyIsSpace b0 = false := (digit_char_facts b0 hb0).2.1
  obtain ⟨T2, hnc2⟩ := numCands_digits_k b0 dB [] hb0 hB
  unfold boundAt
  dsimp only []
  rw [if_pos rfl, wsSplits_cons_nospace '=' _ (by decide)]
  apply findSome_cons_some
  show (eqSplits ('=' :: (b0 :: (dB ++ ['k'])))).findSome?
      (fun e => boundNum ('<' :: '=' :: (b0 :: (dB ++ ['k']))) e) =
    some (b0 :: (dB ++ ['k']), dB.length + 4)
  unfold eqSplits
  dsimp only []
  rw [if_pos rfl]
  apply findSome_cons_some
  show boundNum ('<' :: '=' :: (b0 :: (dB ++ ['k']))) (b0 :: (dB ++ ['k'])) =
    some (b0 :: (dB ++ ['k']), dB.length + 4)
  unfold boundNum
  rw [wsSplits_cons_nospace b0 _ hb0sp]
  apply findSome_cons_some
  show (numCands (b0 :: (dB ++ ['k']))).findSome?
      (fun g => some (g.1,
        ('<' :: '=' :: (b0 :: (dB ++ ['k']))).length - g.2.length)) =
    some (b0 :: (dB ++ ['k']), dB.length + 4)
  rw [hnc2]
  apply findSome_cons_some
  simp

theorem singleAt_family (b0 : Char) (dB : PyStr)
    (hb0 : pyIsDigit b0 = true) (hB : ∀ c ∈ dB, pyIsDigit c = true) :
    singleAt (b0 :: (dB ++ ['k'])) =
      some (b0 :: (dB ++ ['k']), dB.length + 2) := by
  obtain ⟨T, hnc⟩ := numCands_digits_k b0 dB [] hb0 hB
  unfold singleAt
  rw [hnc]
  apply findSome_cons_some
  simp

-- Absence lemmas: a pattern with no occurrence of its key character
-- matches nowhere.

theorem starSplits_snd_mem (cls : Char → Bool) (s : PyStr) (p : PyStr × PyStr)
    (hp : p ∈ starSplits cls s) : ∀ c ∈ p.2, c ∈ s := by
  simp only [starSplits] at hp
  obtain ⟨k, _, hpk⟩ := List.mem_map.mp hp
  intro c hc
  rw [← hpk] at hc
  exact List.mem_of_mem_drop hc

theorem numCands_snd_mem (s : PyStr) (g : PyStr × PyStr) (hg : g ∈ numCands s) :
    ∀ c ∈ g.2, c ∈ s := by
  cases s with
  | nil => simp [numCands] at hg
  | cons c0 rest =>
    unfold numCands at hg
    dsimp only [] at hg
    by_cases h0 : pyIsDigit c0 = true
    · rw [if_pos h0] at hg
      obtain ⟨p, hp, hgf⟩ := List.mem_flatMap.mp hg
      have hp2 : ∀ x ∈ p.2, x ∈ rest := starSplits_snd_mem NUMCLS rest p hp
      cases hsnd : p.2 with
      | nil =>
        rw [hsnd] at hgf
        dsimp only [] at hgf
        rw [List.mem_singleton] at hgf
        intro x hx
        rw [hgf] at hx
        simp at hx
      | cons k r3 =>
        rw [hsnd] at hgf
        dsimp only [] at hgf
        by_cases hk : k = 'k' ∨ k = 'K'
        · rw [if_pos hk] at hgf
          intro x hx
          rcases List.mem_cons.mp hgf with hgf | hgf
          · rw [hgf] at hx
            have hx' : x ∈ r3 := hx
            have hxp : x ∈ p.2 := by
              rw [hsnd]; exact List.mem_cons_of_mem _ hx'
            exact List.mem_cons_of_mem _ (hp2 x hxp)
          · rw [List.mem_singleton] at hgf
            rw [hgf] at hx
            have hx' : x ∈ k :: r3 := hx
            have hxp : x ∈ p.2 := by rw [hsnd]; exact hx'
            exact List.mem_cons_of_mem _ (hp2 x hxp)
        · rw [if_neg hk] at hgf
          rw [List.mem_singleton] at hgf
          intro x hx
          rw [hgf] at hx
          have hx' : x ∈ k :: r3 := hx
          have hxp : x ∈ p.2 := by rw [hsnd]; exact hx'
          exact List.mem_cons_of_mem _ (hp2 x hxp)
    · rw [if_neg h0] at hg
      simp at hg

theorem rangeAt_none_of_no_dash (s : PyStr)
    (h : ∀ c ∈ s, c ≠ '-' ∧ c ≠ '–') : rangeAt s = none := by
  unfold rangeAt
  apply findSome_none_of_all
  intro g1p hg1
  show (wsSplits g1p.2).findSome? (fun w1 => rangeDash s g1p.1 w1.2) = none
  apply findSome_none_of_all
  intro w1 hw1
  show rangeDash s g1p.1 w1.2 = none
  cases hw : w1.2 with
  | nil => rfl
  | cons dd r3 =>
    have hdd : dd ∈ s := by
      have h1 : dd ∈ w1.2 := by rw [hw]; exact List.mem_cons_self _ _
      have h2 : dd ∈ g1p.2 := starSplits_snd_mem pyIsSpace g1p.2 w1 hw1 dd h1
      exact numCands_snd_mem s g1p hg1 dd h2
    unfold rangeDash
    dsimp only []
    rw [if_neg]
    rintro (he | he)
    · exact (h dd hdd).1 he
    · exact (h dd hdd).2 he

theorem boundAt_none_of_no_sym (sym : Char) (r : PyStr)
    (h : ∀ c ∈ r, c ≠ sym) : boundAt sym r = none := by
  cases r with
  | nil => rfl
  | cons c r1 =>
    unfold boundAt
    dsimp only []
    rw [if_neg (h c (List.mem_cons_self _ _))]

theorem searchAux_none {α : Type} (f : PyStr → Option α) :
    ∀ (t : PyStr) (i : Nat),
      (∀ r : PyStr, (∀ c ∈ r, c ∈ t) → f r = none) →
      searchAux f t i = none := by
  intro t
  induction t with
  | nil =>
    intro i h
    simp [searchAux, h [] (by simp)]
  | cons c t' ih =>
    intro i h
    unfold searchAux
    rw [h (c :: t') (fun _ hc => hc)]
    exact ih (i + 1) (fun r hr => h r (fun x hx => List.mem_cons_of_mem _ (hr x hx)))

theorem reSearch_none {α : Type} (f : PyStr → Option α) (s : PyStr)
    (h : ∀ r : PyStr, (∀ c ∈ r, c ∈ s) → f r = none) : reSearch f s = none :=
  searchAux_none f s 0 h

-- The four rules of parse_salary_query on whole families of rendered
-- inputs: "A k - B k", "> B k", "<= B k" and "B k" for every A, B.

theorem money_natDigits (b : Nat) (b0 : Char) (dB : PyStr)
    (hB : natDigits b = b0 :: dB) :
    parse_money_numbers (b0 :: (dB ++ ['k'])) = [b * 1000] := by
  have hd : ∀ c ∈ b0 :: dB, pyIsDigit c = true :=
    fun c hc => natDigits_all_digit b c (by rw [hB]; exact hc)
  have h := money_digits_k (b0 :: dB) (by simp) hd
  rw [List.cons_append] at h
  rw [← hB, natDigits_decode] at h
  exact h

theorem excise_full (s : PyStr) (len : Nat) (h : s.length ≤ len) :
    excise s 0 (0 + len) = [] := by
  unfold excise
  rw [List.take_zero, List.drop_eq_nil_of_le (by omega)]
  rfl

theorem parse_salary_range_family (a b : Nat) :
    parse_salary_query (natDigits a ++ pys "k-" ++ natDigits b ++ pys "k") =
      ([], some (a * 1000), some (b * 1000)) := by
  obtain ⟨a0, dA, hA⟩ := List.exists_cons_of_ne_nil (natDigits_ne_nil a)
  obtain ⟨b0, dB, hB⟩ := List.exists_cons_of_ne_nil (natDigits_ne_nil b)
  have ha0 : pyIsDigit a0 = true :=
    natDigits_all_digit a a0 (by rw [hA]; exact List.mem_cons_self _ _)
  have hdA : ∀ c ∈ dA, pyIsDigit c = true :=
    fun c hc => natDigits_all_digit a c (by rw [hA]; exact List.mem_cons_of_mem _ hc)
  have hb0 : pyIsDigit b0 = true :=
    natDigits_all_digit b b0 (by rw [hB]; exact List.mem_cons_self _ _)
  have hdB : ∀ c ∈ dB, pyIsDigit c = true :=
    fun c hc => natDigits_all_digit b c (by rw [hB]; exact List.mem_cons_of_mem _ hc)
  have hS : natDigits a ++ pys "k-" ++ natDigits b ++ pys "k" =
      a0 :: (dA ++ 'k' :: '-' :: (b0 :: (dB ++ ['k']))) := by
    rw [hA, hB, show pys "k-" = ['k', '-'] from rfl,
      show pys "k" = ['k'] from rfl]
    simp
  rw [hS]
  have hset : ∀ c ∈ a0 :: (dA ++ 'k' :: '-' :: (b0 :: (dB ++ ['k']))),
      pyIsDigit c = true ∨ c = 'k' ∨ c = '-' := by
    intro c hc
    simp at hc
    rcases hc with rfl | hc | rfl | rfl | rfl | hc | rfl
    · exact Or.inl ha0
    · exact Or.inl (hdA c hc)
    · exact Or.inr (Or.inl rfl)
    · exact Or.inr (Or.inr rfl)
    · exact Or.inl hb0
    · exact Or.inl (hdB c hc)
    · exact Or.inr (Or.inl rfl)
  have hchar : ∀ c ∈ a0 :: (dA ++ 'k' :: '-' :: (b0 :: (dB ++ ['k']))),
      pyIsSpace c = false := by
    intro c hc
    rcases hset c hc with hd | rfl | rfl
    · exact (digit_char_facts c hd).2.1
    · decide
    · decide
  have hstrip :
      pyStrip (a0 :: (dA ++ 'k' :: '-' :: (b0 :: (dB ++ ['k'])))) =
        a0 :: (dA ++ 'k' :: '-' :: (b0 :: (dB ++ ['k']))) :=
    pyStrip_eq_self_of_no_space _ hchar
  have hsearch : reSearch rangeAt
      (a0 :: (dA ++ 'k' :: '-' :: (b0 :: (dB ++ ['k'])))) =
      some (0, a0 :: (dA ++ ['k']), b0 :: (dB ++ ['k']),
        dA.length + dB.length + 5) :=
    reSearch_at_zero rangeAt a0 _ _ (rangeAt_family a0 b0 dA dB ha0 hb0 hdA hdB)
  have hrule := psq_rule_range
    (a0 :: (dA ++ 'k' :: '-' :: (b0 :: (dB ++ ['k'])))) 0
    (a0 :: (dA ++ ['k'])) (b0 :: (dB ++ ['k'])) (dA.length + dB.length + 5)
    (by simp) (by rw [hstrip]; exact hsearch)
  rw [hrule, hstrip]
  have hlen : (a0 :: (dA ++ 'k' :: '-' :: (b0 :: (dB ++ ['k'])))).length =
      dA.length + dB.length + 5 := by
    simp only [List.length_cons, List.length_append, List.length_nil]
    omega
  rw [excise_full _ _ (by omega)]
  have hm1 : parse_money_numbers (a0 :: (dA ++ ['k'])) = [a * 1000] :=
    money_natDigits a a0 dA hA
  have hm2 : parse_money_numbers (b0 :: (dB ++ ['k'])) = [b * 1000] :=
    money_natDigits b b0 dB hB
  rw [hm1, hm2]
  rfl

theorem parse_salary_gt_family (b : Nat) :
    parse_salary_query (pys ">" ++ natDigits b ++ pys "k") =
      ([], some (b * 1000), none) := by
  obtain ⟨b0, dB, hB⟩ := List.exists_cons_of_ne_nil (natDigits_ne_nil b)
  have hb0 : pyIsDigit b0 = true :=
    natDigits_all_digit b b0 (by rw [hB]; exact List.mem_cons_self _ _)
  have hdB : ∀ c ∈ dB, pyIsDigit c = true :=
    fun c hc => natDigits_all_digit b c (by rw [hB]; exact List.mem_cons_of_mem _ hc)
  have hS : pys ">" ++ natDigits b ++ pys "k" = '>' :: (b0 :: (dB ++ ['k'])) := by
    rw [hB, show pys ">" = ['>'] from rfl, show pys "k" = ['k'] from rfl]
    simp
  rw [hS]
  have hset : ∀ c ∈ '>' :: (b0 :: (dB ++ ['k'])),
      pyIsDigit c = true ∨ c = '>' ∨ c = 'k' := by
    intro c hc
    simp at hc
    rcases hc with rfl | rfl | hc | rfl
    · exact Or.inr (Or.inl rfl)
    · exact Or.inl hb0
    · exact Or.inl (hdB c hc)
    · exact Or.inr (Or.inr rfl)
  have hchar : ∀ c ∈ '>' :: (b0 :: (dB ++ ['k'])), pyIsSpace c = false := by
    intro c hc
    rcases hset c hc with hd | rfl | rfl
    · exact (digit_char_facts c hd).2.1
    · decide
    · decide
  have hnd : ∀ c ∈ '>' :: (b0 :: (dB ++ ['k'])), c ≠ '-' ∧ c ≠ '–' := by
    intro c hc
    rcases hset c hc with hd | rfl | rfl
    · exact ⟨(digit_char_facts c hd).2.2.2.2.1, (digit_char_facts c hd).2.2.2.2.2.1⟩
    · exact ⟨by decide, by decide⟩
    · exact ⟨by decide, by decide⟩
  have hstrip : pyStrip ('>' :: (b0 :: (dB ++ ['k']))) =
      '>' :: (b0 :: (dB ++ ['k'])) := pyStrip_eq_self_of_no_space _ hchar
  have hrng : reSearch rangeAt ('>' :: (b0 :: (dB ++ ['k']))) = none :=
    reSearch_none _ _ (fun r hr =>
      rangeAt_none_of_no_dash r (fun c hc => hnd c (hr c hc)))
  have hgt : reSearch (boundAt '>') ('>' :: (b0 :: (dB ++ ['k']))) =
      some (0, b0 :: (dB ++ ['k']), dB.length + 3) :=
    reSearch_at_zero _ '>' _ _ (boundAt_gt_family b0 dB hb0 hdB)
  have hrule := psq_rule_gt ('>' :: (b0 :: (dB ++ ['k']))) 0
    (b0 :: (dB ++ ['k'])) (dB.length + 3)
    (by simp) (by rw [hstrip]; exact hrng) (by rw [hstrip]; exact hgt)
  rw [hrule, hstrip]
  have hlen : ('>' :: (b0 :: (dB ++ ['k']))).length = dB.length + 3 := by
    simp only [List.length_cons, List.length_append, List.length_nil]
  rw [excise_full _ _ (by omega), money_natDigits b b0 dB hB]
  rfl

theorem parse_salary_le_family (b : Nat) :
    parse_salary_query (pys "<=" ++ natDigits b ++ pys "k") =
      ([], none, some (b * 1000)) := by
  obtain ⟨b0, dB, hB⟩ := List.exists_cons_of_ne_nil (natDigits_ne_nil b)
  have hb0 : pyIsDigit b0 = true :=
    natDigits_all_digit b b0 (by rw [hB]; exact List.mem_cons_self _ _)
  have hdB : ∀ c ∈ dB, pyIsDigit c = true :=
    fun c hc => natDigits_all_digit b c (by rw [hB]; exact List.mem_cons_of_mem _ hc)
  have hS : pys "<=" ++ natDigits b ++ pys "k" =
      '<' :: '=' :: (b0 :: (dB ++ ['k'])) := by
    rw [hB, show pys "<=" = ['<', '='] from rfl, show pys "k" = ['k'] from rfl]
    simp
  rw [hS]
  have hset : ∀ c ∈ '<' :: '=' :: (b0 :: (dB ++ ['k'])),
      pyIsDigit c = true ∨ c = '<' ∨ c = '=' ∨ c = 'k' := by
    intro c hc
    simp at hc
    rcases hc with rfl | rfl | rfl | hc | rfl
    · exact Or.inr (Or.inl rfl)
    · exact Or.inr (Or.inr (Or.inl rfl))
    · exact Or.inl hb0
    · exact Or.inl (hdB c hc)
    · exact Or.inr (Or.inr (Or.inr rfl))
  have hchar : ∀ c ∈ '<' :: '=' :: (b0 :: (dB ++ ['k'])),
      pyIsSpace c = false := by
    intro c hc
    rcases hset c hc with hd | rfl | rfl | rfl
    · exact (digit_char_facts c hd).2.1
    · decide
    · decide
    · decide
  have hnd : ∀ c ∈ '<' :: '=' :: (b0 :: (dB ++ ['k'])), c ≠ '-' ∧ c ≠ '–' := by
    intro c hc
    rcases hset c hc with hd | rfl | rfl | rfl
    · exact ⟨(digit_char_facts c hd).2.2.2.2.1, (digit_char_facts c hd).2.2.2.2.2.1⟩
    · exact ⟨by decide, by decide⟩
    · exact ⟨by decide, by decide⟩
    · exact ⟨by decide, by decide⟩
  have hngt : ∀ c ∈ '<' :: '=' :: (b0 :: (dB ++ ['k'])), c ≠ '>' := by
    intro c hc
    rcases hset c hc with hd | rfl | rfl | rfl
    · exact (digit_char_facts c hd).2.2.2.2.2.2.1
    · decide
    · decide
    · decide
  have hstrip : pyStrip ('<' :: '=' :: (b0 :: (dB ++ ['k']))) =
      '<' :: '=' :: (b0 :: (dB ++ ['k'])) := pyStrip_eq_self_of_no_space _ hchar
  have hrng : reSearch rangeAt ('<' :: '=' :: (b0 :: (dB ++ ['k']))) = none :=
    reSearch_none _ _ (fun r hr =>
      rangeAt_none_of_no_dash r (fun c hc => hnd c (hr c hc)))
  have hgt : reSearch (boundAt '>') ('<' :: '=' :: (b0 :: (dB ++ ['k']))) = none :=
    reSearch_none _ _ (fun r hr =>
      boundAt_none_of_no_sym '>' r (fun c hc => hngt c (hr c hc)))
  have hlt : reSearch (boundAt '<') ('<' :: '=' :: (b0 :: (dB ++ ['k']))) =
      some (0, b0 :: (dB ++ ['k']), dB.length + 4) :=
    reSearch_at_zero _ '<' _ _ (boundAt_le_family b0 dB hb0 hdB)
  have hrule := psq_rule_lt ('<' :: '=' :: (b0 :: (dB ++ ['k']))) 0
    (b0 :: (dB ++ ['k'])) (dB.length + 4)
    (by simp) (by rw [hstrip]; exact hrng) (by rw [hstrip]; exact hgt)
    (by rw [hstrip]; exact hlt)
  rw [hrule, hstrip]
  have hlen : ('<' :: '=' :: (b0 :: (dB ++ ['k']))).length = dB.length + 4 := by
    simp only [List.length_cons, List.length_append, List.length_nil]
  rw [excise_full _ _ (by omega), money_natDigits b b0 dB hB]
  rfl

theorem parse_salary_single_family (b : Nat) :
    parse_salary_query (natDigits b ++ pys "k") =
      ([], some (b * 1000), none) := by
  obtain ⟨b0, dB, hB⟩ := List.exists_cons_of_ne_nil (natDigits_ne_nil b)
  have hb0 : pyIsDigit b0 = true :=
    natDigits_all_digit b b0 (by rw [hB]; exact List.mem_cons_self _ _)
  have hdB : ∀ c ∈ dB, pyIsDigit c = true :=
    fun c hc => natDigits_all_digit b c (by rw [hB]; exact List.mem_cons_of_mem _ hc)
  have hS : natDigits b ++ pys "k" = b0 :: (dB ++ ['k']) := by
    rw [hB, show pys "k" = ['k'] from rfl]
    simp
  rw [hS]
  have hset : ∀ c ∈ b0 :: (dB ++ ['k']), pyIsDigit c = true ∨ c = 'k' := by
    intro c hc
    simp at hc
    rcases hc with rfl | hc | rfl
    · exact Or.inl hb0
    · exact Or.inl (hdB c hc)
    · exact Or.inr rfl
  have hchar : ∀ c ∈ b0 :: (dB ++ ['k']), pyIsSpace c = false := by
    intro c hc
    rcases hset c hc with hd | rfl
    · exact (digit_char_facts c hd).2.1
    · decide
  have hnd : ∀ c ∈ b0 :: (dB ++ ['k']), c ≠ '-' ∧ c ≠ '–' := by
    intro c hc
    rcases hset c hc with hd | rfl
    · exact ⟨(digit_char_facts c hd).2.2.2.2.1, (digit_char_facts c hd).2.2.2.2.2.1⟩
    · exact ⟨by decide, by decide⟩
  have hngt : ∀ c ∈ b0 :: (dB ++ ['k']), c ≠ '>' := by
    intro c hc
    rcases hset c hc with hd | rfl
    · exact (digit_char_facts c hd).2.2.2.2.2.2.1
    · decide
  have hnlt : ∀ c ∈ b0 :: (dB ++ ['k']), c ≠ '<' := by
    intro c hc
    rcases hset c hc with hd | rfl
    · exact (digit_char_facts c hd).2.2.2.2.2.2.2.1
    · decide
  have hstrip : pyStrip (b0 :: (dB ++ ['k']))  = b0 :: (dB ++ ['k']) :=
    pyStrip_eq_self_of_no_space _ hchar
  have hrng : reSearch rangeAt (b0 :: (dB ++ ['k'])) = none :=
    reSearch_none _ _ (fun r hr =>
      rangeAt_none_of_no_dash r (fun c hc => hnd c (hr c hc)))
  have hgt : reSearch (boundAt '>') (b0 :: (dB ++ ['k'])) = none :=
    reSearch_none _ _ (fun r hr =>
      boundAt_none_of_no_sym '>' r (fun c hc => hngt c (hr c hc)))
  have hlt : reSearch (boundAt '<') (b0 :: (dB ++ ['k'])) = none :=
    reSearch_none _ _ (fun r hr =>
      boundAt_none_of_no_sym '<' r (fun c hc => hnlt c (hr c hc)))
  have hone : reSearch singleAt (b0 :: (dB ++ ['k'])) =
      some (0, b0 :: (dB ++ ['k']), dB.length + 2) :=
    reSearch_at_zero _ b0 _ _ (singleAt_family b0 dB hb0 hdB)
  have hrule := psq_rule_single (b0 :: (dB ++ ['k'])) 0
    (b0 :: (dB ++ ['k'])) (dB.length + 2)
    (by simp) (by rw [hstrip]; exact hrng) (by rw [hstrip]; exact hgt)
    (by rw [hstrip]; exact hlt) (by rw [hstrip]; exact hone)
  rw [hrule, hstrip]
  have hlen : (b0 :: (dB ++ ['k'])).length = dB.length + 2 := by
    simp only [List.length_cons, List.length_append, List.length_nil]
  rw [excise_full _ _ (by omega), money_natDigits b b0 dB hB]
  rfl

/-- C2: `parse_salary_query` applies its four rules in strict priority
order, the first matching rule winning exactly once — a range beats a ">"
lower bound, which beats a "<" upper bound, which beats a bare number, and
with no match the trimmed input passes through; on every rendered range
"AkdashBk" the floor is the left-hand value and the ceiling the right-hand
value, with no swap or validation, universally in A and B (so in particular
whenever A exceeds B), and likewise ">Bk", "<=Bk" and the bare "Bk" parse
for every B; the residual text is the input with the matched span excised
and then trimmed, as the concrete evaluations (including "120k-80k" and
"python 80k - 120k remote") show. -/
theorem C2_parse_salary_priority_and_range :
    (∀ (s : PyStr) (i : Nat) (g1 g2 : PyStr) (len : Nat), s ≠ [] →
      reSearch rangeAt (pyStrip s) = some (i, g1, g2, len) →
      parse_salary_query s =
        (excise (pyStrip s) i (i + len), (parse_money_numbers g1).head?,
         (parse_money_numbers g2).getLast?)) ∧
    (∀ (s : PyStr) (i : Nat) (g : PyStr) (len : Nat), s ≠ [] →
      reSearch rangeAt (pyStrip s) = none →
      reSearch (boundAt '>') (pyStrip s) = some (i, g, len) →
      parse_salary_query s =
        (excise (pyStrip s) i (i + len), (parse_money_numbers g).head?,
         none)) ∧
    (∀ (s : PyStr) (i : Nat) (g : PyStr) (len : Nat), s ≠ [] →
      reSearch rangeAt (pyStrip s) = none →
      reSearch (boundAt '>') (pyStrip s) = none →
      reSearch (boundAt '<') (pyStrip s) = some (i, g, len) →
      parse_salary_query s =
        (excise (pyStrip s) i (i + len), none,
         (parse_money_numbers g).head?)) ∧
    (∀ (s : PyStr) (i : Nat) (g : PyStr) (len : Nat), s ≠ [] →
      reSearch rangeAt (pyStrip s) = none →
      reSearch (boundAt '>') (pyStrip s) = none →
      reSearch (boundAt '<') (pyStrip s) = none →
      reSearch singleAt (pyStrip s) = some (i, g, len) →
      parse_salary_query s =
        (excise (pyStrip s) i (i + len), (parse_money_numbers g).head?,
         none)) ∧
    (∀ s : PyStr, s ≠ [] →
      reSearch rangeAt (pyStrip s) = none →
      reSearch (boundAt '>') (pyStrip s) = none →
      reSearch (boundAt '<') (pyStrip s) = none →
      reSearch singleAt (pyStrip s) = none →
      parse_salary_query s = (pyStrip s, none, none)) ∧
    (∀ a b : Nat,
      parse_salary_query (natDigits a ++ pys "k-" ++ natDigits b ++ pys "k") =
        ([], some (a * 1000), some (b * 1000))) ∧
    (∀ b : Nat,
      parse_salary_query (pys ">" ++ natDigits b ++ pys "k") =
        ([], some (b * 1000), none)) ∧
    (∀ b : Nat,
      parse_salary_query (pys "<=" ++ natDigits b ++ pys "k") =
        ([], none, some (b * 1000))) ∧
    (∀ b : Nat,
      parse_salary_query (natDigits b ++ pys "k") =
        ([], some (b * 1000), none)) ∧
    parse_salary_query (pys "80k-120k") = ([], some 80000, some 120000) ∧
    parse_salary_query (pys "120k-80k") = ([], some 120000, some 80000) ∧
    parse_salary_query (pys ">100k") = ([], some 100000, none) ∧
    parse_salary_query (pys "<=90k") = ([], none, some 90000) ∧
    parse_salary_query (pys "dev 90k") = (pys "dev", some 90000, none) ∧
    parse_salary_query (pys "python 80k - 120k remote") =
      (pys "python  remote", some 80000, some 120000) :=
  ⟨psq_rule_range, psq_rule_gt, psq_rule_lt, psq_rule_single, psq_rule_none,
   parse_salary_range_family, parse_salary_gt_family, parse_salary_le_family,
   parse_salary_single_family, by decide, by decide, by decide, by decide,
   by decide, by decide⟩

/-- Witness for C2: rule 1 applied at the concrete input " 80k-120k ",
with each hypothesis discharged by evaluation. -/
theorem C2_witness :
    pys " 80k-120k " ≠ [] ∧
    reSearch rangeAt (pyStrip (pys " 80k-120k ")) =
      some (0, pys "80k", pys "120k", 8) ∧
    parse_salary_query (pys " 80k-120k ") =
      (excise (pyStrip (pys " 80k-120k ")) 0 (0 + 8),
       (parse_money_numbers (pys "80k")).head?,
       (parse_money_numbers (pys "120k")).getLast?) :=
  ⟨by decide, by decide,
   C2_parse_salary_priority_and_range.1 (pys " 80k-120k ") 0 (pys "80k")
     (pys "120k") 8 (by decide) (by decide)⟩
